import Mathlib

/-!
Shallow embedding of the `jupyter-myst-build-proxy` service and proofs about it.

The embedding follows the two Python sources:

* `src/jupyter_myst_build_proxy/static_server.py` — request-path resolution
  (`_parse_path`), the build coordinator (`do_GET`'s status handling,
  `_start_build`'s completion logic, `_postbuild`), the rebuild trigger and the
  static responder branch of `do_GET`, and the escaping of build output in
  `_render_template`.
* `src/jupyter_myst_build_proxy/__init__.py` — the response rewrite hook
  `rewrite_myst_response`.

Strings are modelled as Lean `String`s; splitting and scanning are done on the
character lists so that everything is executable and kernel-reducible.
Filesystem state is a pair of lists of existing file and directory paths, all
stored in canonical form (the OS resolves `.`/`..` itself, and every path the
code probes has been passed through `os.path.abspath` first, so membership of
canonical paths models `os.path.exists`).  Machine integers do not occur;
subprocess exit codes are `Int`.
-/

/-! ### Character-level string helpers (Python `str` operations) -/

/-- Python `s.split(sep, 1)`: the part before the first occurrence of `c`, and
`some` of the remainder after it when `c` occurs. -/
def breakAt (c : Char) : List Char → List Char × Option (List Char)
  | [] => ([], none)
  | x :: xs =>
    if x = c then ([], some xs)
    else
      let r := breakAt c xs
      (x :: r.1, r.2)

/-- Python `s.split(sep)` for a one-character separator. -/
def splitOnChar (c : Char) (l : List Char) : List (List Char) :=
  l.foldr
    (fun x acc =>
      if x = c then [] :: acc
      else
        match acc with
        | a :: r => (x :: a) :: r
        | [] => [[x]])
    [[]]

/-- `needle` occurs as a contiguous sublist of the second argument. -/
def subListOf (needle : List Char) : List Char → Bool
  | [] => needle.isPrefixOf []
  | c :: t => needle.isPrefixOf (c :: t) || subListOf needle t

/-- Python `"text" in s` (substring containment). -/
def containsSubstr (hay needle : String) : Bool :=
  subListOf needle.data hay.data

/-- Python `s.startswith(p)`. -/
def strStarts (s pre : String) : Bool :=
  pre.data.isPrefixOf s.data

/-- Python `s.endswith(p)`. -/
def strEnds (s suf : String) : Bool :=
  suf.data.isSuffixOf s.data

/-- Python `s.rstrip("/")`. -/
def rstripSlash (s : String) : String :=
  String.mk (s.data.reverse.dropWhile (· = '/')).reverse

/-- Python `s.lstrip("/")`. -/
def lstripSlash (s : String) : String :=
  String.mk (s.data.dropWhile (· = '/'))

/-- Python `"/".join(l)` (and `sep.join` generally). -/
def joinSep (sep : String) : List String → String
  | [] => ""
  | [x] => x
  | x :: y :: xs => x ++ sep ++ joinSep sep (y :: xs)

/-- The value of a hexadecimal digit, `none` for other characters. -/
def hexVal (c : Char) : Option Nat :=
  if '0' ≤ c ∧ c ≤ '9' then some (c.toNat - 48)
  else if 'a' ≤ c ∧ c ≤ 'f' then some (c.toNat - 87)
  else if 'A' ≤ c ∧ c ≤ 'F' then some (c.toNat - 55)
  else none

/-- `urllib.parse.unquote`: decode `%XY` percent-escapes, leaving malformed
escapes as they are.  (Multi-byte UTF-8 escape sequences decode here to one
character per byte; every input considered in the theorems below is escape-free,
where `unquote` is the identity in both Python and this model.) -/
def unquoteChars : List Char → List Char
  | [] => []
  | '%' :: a :: b :: rest =>
    match hexVal a, hexVal b with
    | some x, some y => Char.ofNat (16 * x + y) :: unquoteChars rest
    | _, _ => '%' :: unquoteChars (a :: b :: rest)
  | c :: rest => c :: unquoteChars rest

/-- `urllib.parse.unquote` on a `String`. -/
def unquote (s : String) : String :=
  String.mk (unquoteChars s.data)

/-- `urllib.parse.unquote_plus`: `+` becomes a space, then percent-decoding. -/
def unquotePlus (s : String) : String :=
  String.mk (unquoteChars (s.data.map fun c => if c = '+' then ' ' else c))

/-! ### URL parsing (`urllib.parse` as used by the server) -/

/-- `self.path.split("?")[0]`: the request path before the query string. -/
def beforeQuery (raw : String) : String :=
  String.mk (breakAt '?' raw.data).1

/-- `self.path.split("?", 1)[1]` guarded by `"?" in self.path`: the query part
of the raw request, when present. -/
def afterQuery (raw : String) : Option String :=
  ((breakAt '?' raw.data).2).map String.mk

/-- `urllib.parse.urlparse(url).query`: the fragment (after `#`) is split off
first, then the query is everything after the first `?`. -/
def queryOf (raw : String) : String :=
  String.mk (((breakAt '?' (breakAt '#' raw.data).1).2).getD [])

/-- `urllib.parse.urlparse(url).path` for the server-relative URLs passed to
the rewrite hook: everything before the query and fragment. -/
def urlPath (raw : String) : String :=
  String.mk (breakAt '?' (breakAt '#' raw.data).1).1

/-- One field of a query string, as `urllib.parse.parse_qsl` treats it:
split at the first `=`; a field without `=` or with an empty value is dropped
(`keep_blank_values` is false), otherwise name and value are plus/percent
decoded. -/
def parseQsField (field : List Char) : Option (String × String) :=
  if field = [] then none
  else
    match breakAt '=' field with
    | (_, none) => none
    | (name, some v) =>
      if v = [] then none
      else some (unquotePlus (String.mk name), unquotePlus (String.mk v))

/-- `urllib.parse.parse_qsl(query)`. -/
def parseQsl (q : String) : List (String × String) :=
  (splitOnChar '&' q.data).filterMap parseQsField

/-- `parse_qs(query).get(key, [])`: the list of values bound to `key`. -/
def qsGet (q key : String) : List String :=
  (parseQsl q).filterMap fun p => if p.1 = key then some p.2 else none

/-! ### POSIX path arithmetic (`os.path` as used by the server) -/

/-- One step of `posixpath.normpath` on an absolute path: empty and `.`
segments vanish, `..` removes the previous segment (or nothing at the root). -/
def normStep (acc : List String) (seg : String) : List String :=
  if seg = "" ∨ seg = "." then acc
  else if seg = ".." then acc.dropLast
  else acc ++ [seg]

/-- The normalized segments of an absolute path. -/
def normSegs (segs : List String) : List String :=
  segs.foldl normStep []

/-- `os.path.abspath` for an already-absolute path (which is what every call
site passes: `default_directory` is absolute in deployment and every other
argument is built from it): `posixpath.normpath`. -/
def abspath (p : String) : String :=
  let segs := normSegs (splitOnChar '/' p.data |>.map String.mk)
  if segs = [] then "/" else "/" ++ joinSep "/" segs

/-- `os.path.join(a, b)` for POSIX paths. -/
def joinP (a b : String) : String :=
  if strStarts b "/" then b
  else if a = "" ∨ strEnds a "/" then a ++ b
  else a ++ "/" ++ b

/-- The length of the common prefix of two segment lists. -/
def commonLen : List String → List String → Nat
  | a :: as, b :: bs => if a = b then commonLen as bs + 1 else 0
  | _, _ => 0

/-- `os.path.relpath(p, start)` for absolute POSIX paths. -/
def relpath (p start : String) : String :=
  let a := normSegs (splitOnChar '/' p.data |>.map String.mk)
  let b := normSegs (splitOnChar '/' start.data |>.map String.mk)
  let n := commonLen a b
  let rel := List.replicate (b.length - n) ".." ++ a.drop n
  if rel = [] then "." else joinSep "/" rel

/-! ### Filesystem state -/

/-- The filesystem as the server observes it: the sets of existing regular
files and directories, stored as canonical absolute paths. -/
structure Fs where
  files : List String
  dirs : List String
deriving DecidableEq, Repr

/-- `os.path.exists`. -/
def Fs.existsP (fs : Fs) (p : String) : Bool :=
  fs.files.contains p || fs.dirs.contains p

/-- `os.path.isdir`. -/
def Fs.isdir (fs : Fs) (p : String) : Bool :=
  fs.dirs.contains p

/-- `p` is `root` itself or lies strictly below directory `root`. -/
def isUnder (root p : String) : Bool :=
  p = root || strStarts p (root ++ "/")

/-- `shutil.rmtree(p)` (tolerating absence): every path at or under `p`
disappears. -/
def Fs.rmtree (fs : Fs) (p : String) : Fs :=
  { files := fs.files.filter fun q => ¬ isUnder p q
    dirs := fs.dirs.filter fun q => ¬ isUnder p q }

/-! ### The project resolver (`MystHTTPRequestHandler._parse_path`) -/

/-- `[p for p in clean_path.split("/") if p]`: the non-empty segments of the
percent-decoded request path (before the query string). -/
def requestParts (raw : String) : List String :=
  ((splitOnChar '/' (unquote (beforeQuery raw)).data).map String.mk).filter
    fun p => p ≠ ""

/-- `os.path.abspath(os.path.join(self.default_directory, *parts[:i]))`:
the candidate project directory for the prefix of length `i`. -/
def potentialDir (dd : String) (parts : List String) (i : Nat) : String :=
  abspath ((parts.take i).foldl joinP dd)

/-- Whether the marker check of `_parse_path` succeeds for the prefix of
length `i`: `os.path.exists(os.path.join(potential_myst_dir, "myst.yml"))`. -/
def markerB (dd : String) (fs : Fs) (parts : List String) (i : Nat) : Bool :=
  fs.existsP (joinP (potentialDir dd parts i) "myst.yml")

/-- The in-project path once the marker was found at prefix length `i`:
`"/" + "/".join(parts[i:])`, with a trailing slash restored when the raw
request path (before the query) ended in one and the result is not `"/"`. -/
def suffixPath (rawNoQ : String) (parts : List String) (i : Nat) : String :=
  let fp := "/" ++ joinSep "/" (parts.drop i)
  if strEnds rawNoQ "/" ∧ fp ≠ "/" then fp ++ "/" else fp

/-- The marker-search loop of `_parse_path`: `for i in range(len(parts), 0, -1)`.
`parseLoop … i` examines prefix lengths `i, i-1, …, 1`. -/
def parseLoop (dd : String) (fs : Fs) (parts : List String) (rawNoQ : String) :
    Nat → Option (String × String)
  | 0 => none
  | i + 1 =>
    if markerB dd fs parts (i + 1) then
      some (potentialDir dd parts (i + 1), suffixPath rawNoQ parts (i + 1))
    else parseLoop dd fs parts rawNoQ i

/-- `MystHTTPRequestHandler._parse_path` (static_server.py:35-85): resolve the
raw request path to `(myst_dir, file_path)`.  `dd` is
`self.default_directory`. -/
def parse_path (dd : String) (fs : Fs) (raw : String) : String × String :=
  let rawNoQ := beforeQuery raw
  let parts := requestParts raw
  if parts = [] then (dd, "/")
  else
    match parseLoop dd fs parts rawNoQ parts.length with
    | some r => r
    | none => (abspath (parts.foldl joinP dd), "/")

/-! ### Build records (`build_status`) -/

/-- The status stored in a build record. -/
inductive BStatus
  | building
  | success
  | failed
deriving DecidableEq, Repr

/-- One entry of the `build_status` mapping.  A Python dict without the
`last_output` or `error` key reads back as `""` through `.get(…, "")`, which is
how `do_GET` consumes it, so absent keys are modelled as `""`. -/
structure BuildRec where
  status : BStatus
  last_output : String := ""
  error : String := ""
deriving DecidableEq, Repr

/-- The process-wide `build_status` mapping, keyed by project root. -/
abbrev BuildMap := List (String × BuildRec)

/-- `build_status.get(k)`. -/
def bmFind (m : BuildMap) (k : String) : Option BuildRec :=
  (m.find? fun e => e.1 = k).map fun e => e.2

/-- `del build_status[k]` (tolerating absence). -/
def bmErase (m : BuildMap) (k : String) : BuildMap :=
  m.filter fun e => e.1 ≠ k

/-- `build_status[k] = v`. -/
def bmSet (m : BuildMap) (k : String) (v : BuildRec) : BuildMap :=
  (k, v) :: bmErase m k

/-! ### The post-build hook and build completion (`_postbuild`, `_start_build`) -/

/-- The last `n` elements of a list: Python `l[-n:]`. -/
def lastN (n : Nat) (l : List String) : List String :=
  l.drop (l.length - n)

/-- The loop body of `_postbuild` (static_server.py:292-320) over the output
HTML files, each a `(path, contents)` pair.  Files are rewritten in order; a
file without a closing `</body>` raises `RuntimeError`, which the function's
own `except Exception: … return` clause swallows, so processing stops there
and the function returns normally either way. -/
def postbuildGo (inj : String) (done : List (String × String)) :
    List (String × String) → List (String × String)
  | [] => done
  | (p, c) :: rest =>
    if containsSubstr c "</body>" then
      postbuildGo inj (done ++ [(p, c.replace "</body>" (inj ++ "\n</body>"))]) rest
    else done ++ (p, c) :: rest

/-- `MystHTTPRequestHandler._postbuild` (static_server.py:274-322).  `toggle`
is whether `JUPYTER_MYST_BUILD_PROXY_POSTBUILD` is set; `inj` is the stripped
contents of the injectable fragment shipped with the package (assumed readable,
as it is package data).  Never raises: the internal `try/except` catches the
`RuntimeError` for a missing `</body>` and returns. -/
def postbuild (toggle : Bool) (inj : String) (files : List (String × String)) :
    List (String × String) :=
  if toggle then postbuildGo inj [] files else files

/-- The state after the build worker finishes. -/
structure BuildEnd where
  builds : BuildMap
  files : List (String × String)
deriving Repr

/-- The completion section of the `build` worker in `_start_build`
(static_server.py:246-259): after `process.wait()`, under `build_lock`, a
non-zero exit stores `failed` with the last 20 captured output lines joined by
newlines, and a zero exit runs `_postbuild` and stores `success`.
`output_lines` is the list of non-empty stripped lines the worker captured.
The function is total: no outcome raises out of the worker. -/
def buildFinish (root : String) (returncode : Int) (output_lines : List String)
    (toggle : Bool) (inj : String) (files : List (String × String))
    (builds : BuildMap) : BuildEnd :=
  if returncode ≠ 0 then
    { builds := bmSet builds root
        { status := .failed, error := joinSep "\n" (lastN 20 output_lines) }
      files := files }
  else
    { builds := bmSet builds root { status := .success }
      files := postbuild toggle inj files }

/-! ### The request dispatcher (`MystHTTPRequestHandler.do_GET`) -/

/-- The responses `do_GET` can produce.  Pages whose exact markup comes from
template files outside `src/` (the directory browser and the build-in-progress
page) are kept abstract, carrying the data the handler feeds them. -/
inductive Resp
  | redirect302 (location : String)
  | browserPage (myst_dir base_url : String)
  | buildingPage (myst_dir last_output : String)
  | buildFailed (body : String)
  | redirect301 (location : String)
  | serveFile (path : String)
deriving DecidableEq, Repr

/-- The HTTP status code sent for each response (`send_response` calls in
`do_GET`; the delegated file serving answers 200 for an existing file). -/
def statusCode : Resp → Nat
  | .redirect302 _ => 302
  | .browserPage _ _ => 200
  | .buildingPage _ _ => 200
  | .buildFailed _ => 500
  | .redirect301 _ => 301
  | .serveFile _ => 200

/-- The `base_url` computed at the top of `do_GET` (static_server.py:330-338)
from the configured `jupyter_base_url` and the resolved project root. -/
def computeBase (dd jbu myst_dir : String) : String :=
  let jp := rstripSlash jbu
  if abspath myst_dir = abspath dd then jp ++ "/myst-build"
  else jp ++ "/myst-build/" ++ relpath myst_dir dd

/-- The result of one `do_GET` call: the response, the filesystem and build
mapping afterwards, and the roots for which a build subprocess was started. -/
structure GetResult where
  response : Resp
  fs : Fs
  builds : BuildMap
  launched : List String := []
deriving Repr

/-- `MystHTTPRequestHandler.do_GET` (static_server.py:324-443) as a sequential
function of the observable state.  `dd` is `default_directory`, `jbu` is
`jupyter_base_url`, `raw` is `self.path` and `now` is `int(time.time()*1000)`.
The build worker itself runs asynchronously; `launched` records that
`_start_build` spawned it (the worker's effect is `buildFinish`). -/
def doGET (dd jbu : String) (fs : Fs) (builds : BuildMap) (raw : String)
    (now : Nat) : GetResult :=
  let pp := parse_path dd fs raw
  let myst_dir := pp.1
  let file_path := pp.2
  let base_url := computeBase dd jbu myst_dir
  let html_dir := joinP (joinP myst_dir "_build") "html"
  if qsGet (queryOf raw) "rebuild" = ["1"] ∧
      fs.existsP (joinP myst_dir "myst.yml") = true then
    { response := .redirect302 (base_url ++ file_path ++ "?_t=" ++ toString now)
      fs := fs.rmtree html_dir
      builds := bmErase builds myst_dir }
  else if ¬ fs.existsP (joinP myst_dir "myst.yml") = true then
    { response := .browserPage myst_dir base_url, fs := fs, builds := builds }
  else
    let rcd := bmFind builds myst_dir
    if (rcd.map fun r => r.status) = some .building then
      { response := .buildingPage myst_dir ((rcd.map fun r => r.last_output).getD "")
        fs := fs, builds := builds }
    else if (rcd.map fun r => r.status) = some .failed then
      { response := .buildFailed
          ("Build failed:\n" ++ ((rcd.map fun r => r.error).getD "Unknown error"))
        fs := fs, builds := builds }
    else if ¬ fs.existsP (joinP html_dir "index.html") = true then
      { response := .buildingPage myst_dir ""
        fs := fs
        builds := bmSet builds myst_dir { status := .building }
        launched := [myst_dir] }
    else
      let full_path := joinP html_dir (lstripSlash file_path)
      if fs.isdir full_path = true ∧ ¬ strEnds file_path "/" = true then
        let lastPart :=
          ((splitOnChar '/' (rstripSlash file_path).data).map String.mk).getLastD ""
        let rel := if lastPart ≠ "" then lastPart ++ "/" else "./"
        let rel :=
          match afterQuery raw with
          | some q => rel ++ "?" ++ q
          | none => rel
        { response := .redirect301 rel, fs := fs, builds := builds }
      else
        let sp := file_path
        let sp :=
          match afterQuery sp with
          | some q => file_path ++ "?" ++ q
          | none => sp
        { response := .serveFile sp, fs := fs, builds := builds }

/-! ### The response rewrite hook (`rewrite_myst_response`, __init__.py:6-67)

The substitution `re.sub(r'"url":"(/(?!myst-build/|user/)[^"]+)"', …)` is
embedded as a scanner over the character list: at each position it tries to
match the literal `"url":"` followed by `/`, the negative lookahead for
`myst-build/` and `user/`, a non-empty run of non-quote characters and a
closing quote; a match is replaced (the group re-prefixed with the base URL)
and scanning resumes after the closing quote, exactly as `re.sub` consumes
non-overlapping matches left to right. -/

/-- The literal `"url":"` of the pattern. -/
def LIT7 : List Char := ['"', 'u', 'r', 'l', '"', ':', '"']

/-- The literal `"url":"/`: the fixed prefix a match must start with. -/
def LIT8 : List Char := LIT7 ++ ['/']

/-- The first lookahead token `myst-build/`. -/
def TOKM : List Char := ['m', 'y', 's', 't', '-', 'b', 'u', 'i', 'l', 'd', '/']

/-- The second lookahead token `user/`. -/
def TOKU : List Char := ['u', 's', 'e', 'r', '/']

/-- The negative lookahead `(?!myst-build/|user/)` fails exactly when one of
the two tokens follows. -/
def blockedB (t : List Char) : Bool :=
  TOKM.isPrefixOf t || TOKU.isPrefixOf t

/-- Split a character list at its first double quote: `some (a, b)` when the
list is `a ++ '"' :: b` with `a` quote-free. -/
def splitAtQuote : List Char → Option (List Char × List Char)
  | [] => none
  | c :: cs =>
    if c = '"' then some ([], cs)
    else
      match splitAtQuote cs with
      | some r => some (c :: r.1, r.2)
      | none => none

/-- Match `[^"]+"` at the front of `t`: the greedy non-empty quote-free run and
the text after the closing quote. -/
def grabRun (t : List Char) : Option (List Char × List Char) :=
  match t with
  | [] => none
  | c :: cs =>
    if c = '"' then none
    else
      match splitAtQuote cs with
      | some r => some (c :: r.1, r.2)
      | none => none

/-- Try the whole regex at the start of `s`: on success, the quote-free part
`r` of the captured group `/r` and the text after the match. -/
def headMatch (s : List Char) : Option (List Char × List Char) :=
  if LIT8.isPrefixOf s then
    let t := s.drop 8
    if blockedB t then none else grabRun t
  else none

/-- The scanner with explicit fuel (one unit per character position or match,
so `s.length` always suffices); out of fuel it returns the rest unchanged. -/
def subUrlsF (base : List Char) : Nat → List Char → List Char
  | 0, s => s
  | fuel + 1, s =>
    match headMatch s with
    | some (r, rest) => LIT7 ++ base ++ '/' :: (r ++ '"' :: subUrlsF base fuel rest)
    | none =>
      match s with
      | [] => []
      | c :: cs => c :: subUrlsF base fuel cs

/-- `re.sub(r'"url":"(/(?!myst-build/|user/)[^"]+)"', '"url":"' + base + r'\1"', s)`. -/
def subUrls (base s : List Char) : List Char :=
  subUrlsF base s.length s

/-- The headers and body of a response as the rewrite hook reads and writes
them: the declared content type, the body text, and the declared
content-length header. -/
structure RResponse where
  contentType : String
  body : String
  contentLength : Option String := none
deriving DecidableEq, Repr

/-- The request the hook receives; only `request.uri` is consulted. -/
structure RRequest where
  uri : String
deriving DecidableEq, Repr

/-- The characters of `proxy_base[:-11]`: Python string slicing drops the last
11 characters. -/
def dropRight11 (s : String) : String :=
  String.mk (s.data.take (s.data.length - 11))

/-- The `parts` computed from the path after the proxy base
(__init__.py:47-52): non-empty segments, with a final file-like segment (one
containing a dot, or literally `index`) removed. -/
def rewriteParts (project_and_file : String) : List String :=
  let parts := ((splitOnChar '/' project_and_file.data).map String.mk).filter
    fun p => p ≠ ""
  match parts.getLast? with
  | some last =>
    if last.data.contains '.' ∨ last = "index" then parts.dropLast else parts
  | none => parts

/-- The rewrite base URL (__init__.py:33-58) from the rstripped proxy base and
the request path. -/
def rewriteBaseUrl (proxy_base path : String) : String :=
  let jupyter_base :=
    if strEnds proxy_base "/myst-build" then dropRight11 proxy_base else ""
  let project_and_file :=
    if path = proxy_base then "/" else String.mk (path.data.drop proxy_base.data.length)
  let parts := rewriteParts project_and_file
  if parts ≠ [] then jupyter_base ++ "/myst-build/" ++ joinSep "/" parts
  else jupyter_base ++ "/myst-build"

/-- `rewrite_myst_response(response, request)` (__init__.py:6-67).
`proxyBaseUrl` is the module global `_PROXY_BASE_URL` (set at startup, `none`
when never configured).  Non-HTML responses, an unset base URL, and requests
outside the proxy mount pass through unchanged; otherwise the body is
rewritten and the content-length header updated to the new UTF-8 byte
length. -/
def rewrite_myst_response (proxyBaseUrl : Option String) (resp : RResponse)
    (req : RRequest) : RResponse :=
  if ¬ containsSubstr resp.contentType "text/html" = true then resp
  else
    match proxyBaseUrl with
    | none => resp
    | some pbu =>
      let proxy_base := rstripSlash pbu
      let path := urlPath req.uri
      if ¬ strStarts path (proxy_base ++ "/") = true ∧ path ≠ proxy_base then resp
      else
        let base_url := rewriteBaseUrl proxy_base path
        let body2 := String.mk (subUrls base_url.data resp.body.data)
        { contentType := resp.contentType
          body := body2
          contentLength := some (toString body2.utf8ByteSize) }

/-! ### Escaping of build output (`_render_template`, static_server.py:87-107) -/

/-- `html.escape(s)` with `quote=True`: the five chained `str.replace` calls
of CPython's `html.escape`, expressed as the equivalent per-character map
(`&` is replaced first and no replacement text contains a character that a
later replace rewrites, so the chain acts independently on each input
character). -/
def htmlEscapeChar (c : Char) : List Char :=
  if c = '&' then ['&', 'a', 'm', 'p', ';']
  else if c = '<' then ['&', 'l', 't', ';']
  else if c = '>' then ['&', 'g', 't', ';']
  else if c = '"' then ['&', 'q', 'u', 'o', 't', ';']
  else if c = '\'' then ['&', '#', 'x', '2', '7', ';']
  else [c]

/-- `html.escape(s)` on a `String`. -/
def htmlEscape (s : String) : String :=
  String.mk (s.data.flatMap htmlEscapeChar)

/-- The `last_output_html` value `_render_template` substitutes into
`building.html` (static_server.py:96-105): the escaped last output line inside
a `div`, or nothing at all when the line is empty. -/
def lastOutputHtml (last_output : String) : String :=
  if last_output ≠ "" then
    "<div class=\"build-output\">" ++ htmlEscape last_output ++ "</div>"
  else ""

/-! ### Two concurrent handlers racing to start a build

`do_GET` reads the build status under `build_lock` (static_server.py:377-380)
and, in a separate `with build_lock` block, records `building`
(static_server.py:407-408) before `_start_build` spawns the subprocess
(static_server.py:409, 225).  The interleaving model below gives each lock
block one atomic step, for two handler threads serving the same project root
whose marker file exists and whose output `index.html` is absent throughout
(the spawned builds have not produced it yet). -/

/-- The shared state for one project root: its `build_status` entry and how
many build subprocesses have been launched for it. -/
structure C1Global where
  status : Option BStatus
  launches : Nat
deriving DecidableEq, Repr

/-- One handler thread: its program counter and the status it observed under
the first lock block.  pc 0 = about to read status; 1 = status read, about to
check `_needs_build`; 2 = about to set `building`; 3 = about to spawn the
subprocess; 4 = done (responded). -/
structure C1Thread where
  pc : Nat
  obs : Option BStatus := none
deriving DecidableEq, Repr

/-- One atomic step of a handler thread (each `with build_lock` block of
`do_GET` is a single step; `_needs_build` is a lock-free filesystem probe that
keeps answering true while no build has completed). -/
def c1Step (g : C1Global) (t : C1Thread) : C1Global × C1Thread :=
  match t.pc with
  | 0 => (g, { pc := 1, obs := g.status })
  | 1 =>
    if t.obs = some .building ∨ t.obs = some .failed then (g, { t with pc := 4 })
    else (g, { t with pc := 2 })
  | 2 => ({ g with status := some .building }, { t with pc := 3 })
  | 3 => ({ g with launches := g.launches + 1 }, { t with pc := 4 })
  | _ => (g, t)

/-- Run a schedule: `true` steps thread A, `false` steps thread B. -/
def c1Run : List Bool → C1Global × C1Thread × C1Thread → C1Global × C1Thread × C1Thread
  | [], s => s
  | b :: rest, (g, a, t) =>
    if b then
      let r := c1Step g a
      c1Run rest (r.1, r.2, t)
    else
      let r := c1Step g t
      c1Run rest (r.1, a, r.2)

/-- The initial state: no build record, no launches, both threads at the top
of the status check. -/
def c1Init : C1Global × C1Thread × C1Thread :=
  ({ status := none, launches := 0 }, { pc := 0 }, { pc := 0 })

/-! ### Basic lemmas about the mapping and string helpers -/

theorem bmFind_set (m : BuildMap) (k : String) (v : BuildRec) :
    bmFind (bmSet m k v) k = some v := by
  simp [bmFind, bmSet, List.find?]

theorem bmFind_erase (m : BuildMap) (k : String) :
    bmFind (bmErase m k) k = none := by
  induction m with
  | nil => rfl
  | cons e t ih =>
    by_cases h : e.1 = k
    · rw [show bmErase (e :: t) k = bmErase t k by simp [bmErase, List.filter_cons, h]]
      exact ih
    · rw [show bmErase (e :: t) k = e :: bmErase t k by
        simp [bmErase, List.filter_cons, h]]
      simpa [bmFind, List.find?_cons, h] using ih

theorem subListOf_append_right (n a : List Char) :
    subListOf n (a ++ n) = true := by
  induction a with
  | nil =>
    cases n with
    | nil => rfl
    | cons c t =>
      simp only [List.nil_append, subListOf]
      have h : (c :: t).isPrefixOf (c :: t) = true :=
        List.isPrefixOf_iff_prefix.mpr (List.prefix_refl (c :: t))
      simp [h]
  | cons x a' ih =>
    simp only [List.cons_append, subListOf]
    rw [show a'.append n = a' ++ n from rfl, ih, Bool.or_true]

theorem containsSubstr_append_right (a b : String) :
    containsSubstr (a ++ b) b = true := by
  simp only [containsSubstr, String.data_append]
  exact subListOf_append_right b.data a.data

/-! ### Claim C1: atomicity of the build check-and-set -/

/-- Claim C1 (refuting evaluation): the status check and the transition to
`building` happen in two separate `build_lock` sections, so for one project
root two concurrent handlers that both observe "no build in progress" before
either records `building` end up launching two build subprocesses, not exactly
one: running the interleaving A-read, B-read, A-check, A-set, A-launch,
B-check, B-set, B-launch from the initial state yields a launch count of 2. -/
theorem c1_race_two_launches :
    ((c1Run [true, false, true, true, true, false, false, false] c1Init).1 =
        { status := some .building, launches := 2 }) ∧ (2 : Nat) ≠ 1 :=
  ⟨rfl, by decide⟩

/-! ### Claim C2: missing `</body>` in the post-build step -/

/-- Claim C2 (refuting evaluation): with the post-build toggle set and a zero
exit code, a project whose only output HTML file lacks a closing `</body>` tag
is still recorded with status `success` — the `RuntimeError` raised for the
missing tag is swallowed by `_postbuild`'s own `except` clause, which logs and
returns, and `_start_build` then stores `success`; the file is left
untouched rather than the failure being surfaced. -/
theorem c2_missing_body_marked_success :
    (buildFinish "/home/u/proj" 0 [] true "<div>inject</div>"
        [("index.html", "<p>broken page")] []).builds =
      [("/home/u/proj", { status := .success })] ∧
    (buildFinish "/home/u/proj" 0 [] true "<div>inject</div>"
        [("index.html", "<p>broken page")] []).files =
      [("index.html", "<p>broken page")] ∧
    BStatus.success ≠ BStatus.failed :=
  ⟨rfl, rfl, by decide⟩

/-! ### Claim C3: path traversal and canonicalization -/

/-- Claim C3 (counterexample): traversal segments are canonicalized, but
canonicalization alone does not confine the resolver to the content root: with
content root `/home/u` and no marker file anywhere, the request path `/..`
resolves to project root `/home`, which lies outside the content root. -/
theorem c3_escape_counterexample :
    parse_path "/home/u" { files := [], dirs := [] } "/.." = ("/home", "/") ∧
    isUnder "/home/u" "/home" = false := by
  constructor
  · rfl
  · rfl

/-! ### Claim C8: the rewrite hook is a no-op for non-HTML and unset base -/

/-- Claim C8: for every response whose declared content type is not HTML, and
for every response when the mount prefix has never been configured
(`_PROXY_BASE_URL` is unset), the rewrite hook returns the response unchanged,
body and headers untouched. -/
theorem c8_rewrite_noop (pbu : Option String) (resp : RResponse) (req : RRequest)
    (h : containsSubstr resp.contentType "text/html" = false ∨ pbu = none) :
    rewrite_myst_response pbu resp req = resp := by
  rcases h with h | h
  · unfold rewrite_myst_response
    rw [h]
    simp
  · subst h
    unfold rewrite_myst_response
    by_cases hc : containsSubstr resp.contentType "text/html" = true
    · simp [hc]
    · simp [hc]

/-- Witness for C8 at concrete inputs: an unset base URL (with an HTML
response) and a JSON content type (with the base URL set) both pass the
response through unchanged. -/
theorem c8_rewrite_noop_witness :
    rewrite_myst_response none
        { contentType := "text/html", body := "\"url\":\"/a\"" }
        { uri := "/myst-build/x" } =
      { contentType := "text/html", body := "\"url\":\"/a\"" } ∧
    rewrite_myst_response (some "/myst-build/")
        { contentType := "application/json", body := "\"url\":\"/a\"" }
        { uri := "/myst-build/x" } =
      { contentType := "application/json", body := "\"url\":\"/a\"" } :=
  ⟨c8_rewrite_noop none _ _ (Or.inr rfl),
   c8_rewrite_noop (some "/myst-build/") _ _ (Or.inl (by decide))⟩

/-! ### Claim C10: escaping of the builder's last output line -/

/-- `s` contains none of the characters with which markup or an attribute
context could be opened or closed. -/
def noMarkup (s : String) : Prop :=
  ∀ c ∈ s.data, c ≠ '<' ∧ c ≠ '>' ∧ c ≠ '"' ∧ c ≠ '\''

theorem htmlEscapeChar_noMarkup (c : Char) :
    ∀ x ∈ htmlEscapeChar c, x ≠ '<' ∧ x ≠ '>' ∧ x ≠ '"' ∧ x ≠ '\'' := by
  intro x hx
  unfold htmlEscapeChar at hx
  split_ifs at hx with h1 h2 h3 h4 h5
  · fin_cases hx <;> decide
  · fin_cases hx <;> decide
  · fin_cases hx <;> decide
  · fin_cases hx <;> decide
  · fin_cases hx <;> decide
  · fin_cases hx
    exact ⟨h2, h3, h4, h5⟩

/-- Claim C10: the build-in-progress page embeds the stored last output line
only after HTML-escaping it — the emitted block is the `div` wrapper around
`html.escape` of the line, and the escaped text contains no `<`, `>`, `"` or
`'`, so subprocess output cannot inject markup or attribute text — and when
the last output line is empty, no build-output block is emitted at all. -/
theorem c10_last_output_escaped (line : String) :
    (line = "" → lastOutputHtml line = "") ∧
    (line ≠ "" →
      lastOutputHtml line =
        "<div class=\"build-output\">" ++ htmlEscape line ++ "</div>" ∧
      noMarkup (htmlEscape line)) := by
  constructor
  · intro h
    subst h
    rfl
  · intro h
    refine ⟨by simp [lastOutputHtml, h], ?_⟩
    intro c hc
    simp only [htmlEscape, String.data_append] at hc
    rcases List.mem_flatMap.mp hc with ⟨y, _, hy⟩
    exact htmlEscapeChar_noMarkup y c hy

/-- Witness for C10: a last output line full of metacharacters is wrapped and
escaped with nothing markup-active left, and the empty line emits nothing. -/
theorem c10_last_output_escaped_witness :
    lastOutputHtml "" = "" ∧ noMarkup (htmlEscape "<i>'x'&\"q\"</i>") :=
  ⟨(c10_last_output_escaped "").1 rfl,
   ((c10_last_output_escaped "<i>'x'&\"q\"</i>").2 (by decide)).2⟩

/-! ### Claim C4: longest-prefix resolution -/

theorem parseLoop_none (dd : String) (fs : Fs) (parts : List String) (rawNoQ : String) :
    ∀ i, (∀ j, 1 ≤ j → j ≤ i → markerB dd fs parts j = false) →
      parseLoop dd fs parts rawNoQ i = none := by
  intro i
  induction i with
  | zero => intro _; rfl
  | succ n ih =>
    intro h
    unfold parseLoop
    rw [h (n + 1) (by omega) (Nat.le_refl _)]
    simp only [Bool.false_eq_true, if_false]
    exact ih fun j hj1 hj2 => h j hj1 (by omega)

theorem parseLoop_found (dd : String) (fs : Fs) (parts : List String) (rawNoQ : String)
    (K : Nat) (hK1 : 1 ≤ K) (hm : markerB dd fs parts K = true) :
    ∀ i, K ≤ i → (∀ j, K < j → j ≤ i → markerB dd fs parts j = false) →
      parseLoop dd fs parts rawNoQ i =
        some (potentialDir dd parts K, suffixPath rawNoQ parts K) := by
  intro i
  induction i with
  | zero => intro h _; omega
  | succ n ih =>
    intro hKi hnone
    by_cases hEq : K = n + 1
    · subst hEq
      unfold parseLoop
      rw [hm]
      simp
    · have hfalse : markerB dd fs parts (n + 1) = false :=
        hnone (n + 1) (by omega) (Nat.le_refl _)
      unfold parseLoop
      rw [hfalse]
      simp only [Bool.false_eq_true, if_false]
      exact ih (by omega) fun j hj1 hj2 => hnone j hj1 (by omega)

/-- Claim C4: for every request path with at least one non-empty segment, the
resolver tests segment prefixes from longest to shortest for the marker file;
the longest marker-containing prefix `K` wins, the project root is that
(canonicalized) directory and the in-project path is the remaining suffix of
segments re-joined with a leading slash, a trailing slash restored exactly when
the raw request path (before the query) ended in one and the remainder is not
the bare root; when no prefix contains the marker, the project root is the
full joined path and the in-project path is `/`. -/
theorem c4_resolver (dd : String) (fs : Fs) (raw : String)
    (hne : requestParts raw ≠ []) :
    ((∀ j, 1 ≤ j → j ≤ (requestParts raw).length →
        markerB dd fs (requestParts raw) j = false) →
      parse_path dd fs raw = (abspath ((requestParts raw).foldl joinP dd), "/")) ∧
    (∀ K, 1 ≤ K → K ≤ (requestParts raw).length →
      markerB dd fs (requestParts raw) K = true →
      (∀ j, K < j → j ≤ (requestParts raw).length →
        markerB dd fs (requestParts raw) j = false) →
      parse_path dd fs raw =
        (potentialDir dd (requestParts raw) K,
          suffixPath (beforeQuery raw) (requestParts raw) K)) := by
  constructor
  · intro h
    unfold parse_path
    rw [if_neg hne, parseLoop_none dd fs (requestParts raw) (beforeQuery raw)
      (requestParts raw).length h]
  · intro K hK1 hKn hm hnone
    unfold parse_path
    rw [if_neg hne, parseLoop_found dd fs (requestParts raw) (beforeQuery raw)
      K hK1 hm (requestParts raw).length hKn hnone]

/-- Witness for C4 at a concrete filesystem: content root `/home/u`, marker
only at `/home/u/proj/myst.yml`, request `/proj/sub/page/` → project root
`/home/u/proj`, in-project path `/sub/page/` (trailing slash preserved). -/
theorem c4_resolver_witness :
    parse_path "/home/u" { files := ["/home/u/proj/myst.yml"], dirs := [] }
        "/proj/sub/page/" = ("/home/u/proj", "/sub/page/") := by
  have h := (c4_resolver "/home/u"
      { files := ["/home/u/proj/myst.yml"], dirs := [] } "/proj/sub/page/"
      (by decide)).2 1 (by decide) (by decide) (by decide) ?_
  · exact h.trans (by decide)
  · intro j hj1 hj2
    have h3 : (requestParts "/proj/sub/page/").length = 3 := by decide
    rw [h3] at hj2
    interval_cases j <;> decide

/-! ### Claim C6: the rebuild trigger -/

theorem existsP_rmtree (fs : Fs) (root p : String) (h : isUnder root p = true) :
    (fs.rmtree root).existsP p = false := by
  have hmem : ∀ l : List String,
      (List.filter (fun q => decide ¬ isUnder root q = true) l).contains p = false := by
    intro l
    rw [Bool.eq_false_iff]
    intro hc
    have hp := List.mem_filter.mp (List.elem_iff.mp hc)
    simp only [decide_eq_true_eq] at hp
    exact hp.2 h
  simp only [Fs.rmtree, Fs.existsP, hmem, Bool.or_self]

/-- Claim C6 (counterexample): a request carrying `rebuild=1` whose resolved
root has no marker file is not answered with a 302 redirect — the rebuild
branch is skipped and the directory browser is rendered with status 200. -/
theorem c6_rebuild_counterexample :
    (doGET "/r" "/" { files := [], dirs := [] } [] "/d?rebuild=1" 0).response =
      .browserPage "/r/d" "/myst-build/d" ∧
    statusCode
        (doGET "/r" "/" { files := [], dirs := [] } [] "/d?rebuild=1" 0).response ≠
      302 := by
  exact ⟨rfl, by decide⟩

/-- Claim C6 (amended): every request carrying the rebuild query parameter
with value `"1"` whose resolved project root still contains the marker file
deletes the project's output directory recursively (tolerating absence),
clears the build record back to absent, and answers with a 302 redirect to
the clean URL carrying a cache-busting `_t` parameter, without launching a
build. -/
theorem c6_amended_rebuild (dd jbu : String) (fs : Fs) (builds : BuildMap)
    (raw : String) (now : Nat)
    (hq : qsGet (queryOf raw) "rebuild" = ["1"])
    (hm : fs.existsP (joinP (parse_path dd fs raw).1 "myst.yml") = true) :
    (doGET dd jbu fs builds raw now).response =
      .redirect302 (computeBase dd jbu (parse_path dd fs raw).1 ++
        (parse_path dd fs raw).2 ++ "?_t=" ++ toString now) ∧
    bmFind (doGET dd jbu fs builds raw now).builds (parse_path dd fs raw).1 =
      none ∧
    (∀ p, isUnder (joinP (joinP (parse_path dd fs raw).1 "_build") "html") p =
        true →
      (doGET dd jbu fs builds raw now).fs.existsP p = false) ∧
    (doGET dd jbu fs builds raw now).launched = [] := by
  unfold doGET
  rw [if_pos ⟨hq, hm⟩]
  refine ⟨rfl, bmFind_erase builds (parse_path dd fs raw).1, ?_, rfl⟩
  intro p hp
  exact existsP_rmtree fs _ p hp

/-- Witness for C6 (amended) at a concrete state: marker present, a stale
`failed` record and an existing output file; the rebuild request redirects with
cache busting, the record is gone and the output file is deleted. -/
theorem c6_amended_rebuild_witness :
    (doGET "/r" "/" { files := ["/r/p/myst.yml", "/r/p/_build/html/index.html"], dirs := [] }
        [("/r/p", { status := .failed, error := "e" })] "/p/?rebuild=1" 7).response =
      .redirect302 "/myst-build/p/?_t=7" ∧
    bmFind (doGET "/r" "/" { files := ["/r/p/myst.yml", "/r/p/_build/html/index.html"], dirs := [] }
        [("/r/p", { status := .failed, error := "e" })] "/p/?rebuild=1" 7).builds "/r/p" = none ∧
    (doGET "/r" "/" { files := ["/r/p/myst.yml", "/r/p/_build/html/index.html"], dirs := [] }
        [("/r/p", { status := .failed, error := "e" })] "/p/?rebuild=1" 7).fs.existsP
      "/r/p/_build/html/index.html" = false := by
  have h := c6_amended_rebuild "/r" "/"
    { files := ["/r/p/myst.yml", "/r/p/_build/html/index.html"], dirs := [] }
    [("/r/p", { status := .failed, error := "e" })] "/p/?rebuild=1" 7
    (by decide) (by decide)
  have e1 : (parse_path "/r"
      { files := ["/r/p/myst.yml", "/r/p/_build/html/index.html"], dirs := [] }
      "/p/?rebuild=1").1 = "/r/p" := by decide
  refine ⟨h.1.trans (by decide), ?_, ?_⟩
  · rw [e1] at h
    exact h.2.1
  · exact h.2.2.1 "/r/p/_build/html/index.html" (by decide)

/-! ### Claim C7: failed builds and the 500 answer -/

/-- Claim C7: when the build subprocess exits non-zero, the build record is
set to `failed` retaining the last 20 captured output lines (joined by
newlines) as diagnostic text, and every subsequent request resolving to that
project (while its marker exists and no rebuild is requested) is answered with
a 500 response whose plain-text body contains that diagnostic text; the build
worker and the handler both return normally rather than aborting. -/
theorem c7_failed_build_500 (dd jbu : String) (fs : Fs) (builds : BuildMap)
    (raw : String) (now : Nat) (root : String) (rc : Int) (lines : List String)
    (toggle : Bool) (inj : String) (files : List (String × String))
    (hrc : rc ≠ 0)
    (hroot : (parse_path dd fs raw).1 = root)
    (hq : qsGet (queryOf raw) "rebuild" ≠ ["1"])
    (hm : fs.existsP (joinP root "myst.yml") = true) :
    bmFind (buildFinish root rc lines toggle inj files builds).builds root =
      some { status := .failed, error := joinSep "\n" (lastN 20 lines) } ∧
    (doGET dd jbu fs (buildFinish root rc lines toggle inj files builds).builds
        raw now).response =
      .buildFailed ("Build failed:\n" ++ joinSep "\n" (lastN 20 lines)) ∧
    statusCode (doGET dd jbu fs
        (buildFinish root rc lines toggle inj files builds).builds raw now).response = 500 ∧
    containsSubstr ("Build failed:\n" ++ joinSep "\n" (lastN 20 lines))
      (joinSep "\n" (lastN 20 lines)) = true ∧
    (doGET dd jbu fs (buildFinish root rc lines toggle inj files builds).builds
        raw now).launched = [] := by
  subst hroot
  have hbf : (buildFinish (parse_path dd fs raw).1 rc lines toggle inj files
      builds).builds =
      bmSet builds (parse_path dd fs raw).1
        { status := .failed, error := joinSep "\n" (lastN 20 lines) } := by
    unfold buildFinish
    rw [if_pos hrc]
  have h1 : bmFind (buildFinish (parse_path dd fs raw).1 rc lines toggle inj
      files builds).builds (parse_path dd fs raw).1 =
      some { status := .failed, error := joinSep "\n" (lastN 20 lines) } := by
    rw [hbf]
    exact bmFind_set _ _ _
  refine ⟨h1, ?_⟩
  unfold doGET
  rw [if_neg (fun hc => hq hc.1), if_neg (fun hc => hc hm), h1]
  simp only [Option.map_some, Option.getD_some]
  norm_num
  rw [if_neg (show ¬ (BStatus.failed = BStatus.building) by decide)]
  exact ⟨rfl, rfl, containsSubstr_append_right _ _, rfl⟩

/-- Witness for C7 at the spec's scenario: exit code 2 with output line
`template error` → the next request answers 500 with the diagnostic in the
body. -/
theorem c7_failed_build_500_witness :
    (doGET "/r" "/" { files := ["/r/p/myst.yml"], dirs := [] }
        (buildFinish "/r/p" 2 ["template error"] false "" [] []).builds
        "/p/" 0).response = .buildFailed "Build failed:\ntemplate error" ∧
    containsSubstr "Build failed:\ntemplate error" "template error" = true := by
  have h := c7_failed_build_500 "/r" "/" { files := ["/r/p/myst.yml"], dirs := [] }
    [] "/p/" 0 "/r/p" 2 ["template error"] false "" []
    (by decide) (by decide) (by decide) (by decide)
  exact ⟨h.2.1.trans (by decide), (by decide : containsSubstr _ _ = true)⟩

/-! ### Claim C9: directory targets and the trailing-slash redirect -/

theorem splitOnChar_cons (c x : Char) (xs : List Char) :
    splitOnChar c (x :: xs) =
      if x = c then [] :: splitOnChar c xs
      else
        match splitOnChar c xs with
        | a :: r => (x :: a) :: r
        | [] => [[x]] := rfl

theorem splitOnChar_ne_nil (c : Char) (l : List Char) : splitOnChar c l ≠ [] := by
  induction l with
  | nil => simp [splitOnChar]
  | cons x xs ih =>
    rw [splitOnChar_cons]
    split
    · simp
    · cases h : splitOnChar c xs with
      | nil => simp
      | cons a r => simp

theorem splitOnChar_no_sep (c : Char) (l : List Char) (h : c ∉ l) :
    splitOnChar c l = [l] := by
  induction l with
  | nil => rfl
  | cons x xs ih =>
    have hx : ¬ x = c := fun he => h (he ▸ List.mem_cons_self x xs)
    rw [splitOnChar_cons, if_neg hx, ih fun hm => h (List.mem_cons_of_mem _ hm)]

theorem splitOnChar_len2_iff (c : Char) (l : List Char) :
    2 ≤ (splitOnChar c l).length ↔ c ∈ l := by
  induction l with
  | nil => simp [splitOnChar]
  | cons x xs ih =>
    rw [splitOnChar_cons]
    by_cases hx : x = c
    · rw [if_pos hx]
      subst hx
      have h1 : 1 ≤ (splitOnChar x xs).length :=
        List.length_pos.mpr (splitOnChar_ne_nil x xs)
      constructor
      · intro _
        exact List.mem_cons_self x xs
      · intro _
        simp only [List.length_cons]
        omega
    · rw [if_neg hx]
      cases h : splitOnChar c xs with
      | nil => exact absurd h (splitOnChar_ne_nil c xs)
      | cons a r =>
        have hlen : (splitOnChar c xs).length = r.length + 1 := by rw [h]; rfl
        simp only [List.length_cons, List.mem_cons]
        rw [hlen] at ih
        constructor
        · intro h2
          exact Or.inr (ih.mp (by omega))
        · intro h2
          rcases h2 with h2 | h2
          · exact absurd h2.symm hx
          · have := ih.mpr h2
            omega

/-- The characters after the last occurrence of `c` (all of `l` when `c` does
not occur). -/
def afterLastC (c : Char) : List Char → List Char
  | [] => []
  | x :: xs => if c ∈ xs then afterLastC c xs else if x = c then xs else x :: xs

/-- Everything up to and including the last occurrence of `c` (empty when `c`
does not occur). -/
def dropLastSegC (c : Char) : List Char → List Char
  | [] => []
  | x :: xs =>
    if c ∈ xs then x :: dropLastSegC c xs else if x = c then [x] else []

theorem afterLastC_cons (c x : Char) (xs : List Char) :
    afterLastC c (x :: xs) =
      if c ∈ xs then afterLastC c xs else if x = c then xs else x :: xs := rfl

theorem dropLastSegC_cons (c x : Char) (xs : List Char) :
    dropLastSegC c (x :: xs) =
      if c ∈ xs then x :: dropLastSegC c xs else if x = c then [x] else [] := rfl

theorem dropLastSegC_append_afterLastC (c : Char) (l : List Char) :
    dropLastSegC c l ++ afterLastC c l = l := by
  induction l with
  | nil => rfl
  | cons x xs ih =>
    unfold dropLastSegC afterLastC
    by_cases h1 : c ∈ xs
    · rw [if_pos h1, if_pos h1, List.cons_append, ih]
    · rw [if_neg h1, if_neg h1]
      by_cases h2 : x = c
      · rw [if_pos h2, if_pos h2]
        rfl
      · rw [if_neg h2, if_neg h2]
        rfl

theorem afterLastC_no_sep (c : Char) (l : List Char) (h : c ∉ l) :
    afterLastC c l = l := by
  cases l with
  | nil => rfl
  | cons x xs =>
    have h1 : c ∉ xs := fun hm => h (List.mem_cons_of_mem _ hm)
    have h2 : ¬ x = c := fun he => h (he ▸ List.mem_cons_self x xs)
    unfold afterLastC
    rw [if_neg h1, if_neg h2]

theorem splitOnChar_getLast? (c : Char) (l : List Char) :
    (splitOnChar c l).getLast? = some (afterLastC c l) := by
  induction l with
  | nil => rfl
  | cons x xs ih =>
    rw [splitOnChar_cons]
    by_cases hx : x = c
    · rw [if_pos hx]
      by_cases hmem : c ∈ xs
      · cases h : splitOnChar c xs with
        | nil => exact absurd h (splitOnChar_ne_nil c xs)
        | cons a r =>
          rw [List.getLast?_cons_cons, ← h, ih, afterLastC_cons, if_pos hmem]
      · rw [splitOnChar_no_sep c xs hmem]
        rw [show ([] :: [xs]).getLast? = some xs from rfl, afterLastC_cons,
          if_neg hmem, if_pos hx]
    · rw [if_neg hx]
      cases h : splitOnChar c xs with
      | nil => exact absurd h (splitOnChar_ne_nil c xs)
      | cons a r =>
        cases r with
        | nil =>
          have hmem : ¬ c ∈ xs := by
            intro hm
            have := (splitOnChar_len2_iff c xs).mpr hm
            rw [h] at this
            simp at this
          rw [splitOnChar_no_sep c xs hmem] at h
          have ha : a = xs := by
            have := congrArg (fun t => t.headD []) h
            simpa using this.symm
          subst ha
          rw [show ((x :: a) :: ([] : List (List Char))).getLast? = some (x :: a) from rfl,
            afterLastC_cons, if_neg hmem, if_neg hx]
        | cons b r' =>
          rw [List.getLast?_cons_cons, ← List.getLast?_cons_cons (a := a), ← h, ih]
          have hmem : c ∈ xs := by
            apply (splitOnChar_len2_iff c xs).mp
            rw [h]
            simp
          rw [afterLastC_cons, if_pos hmem]

theorem afterLastC_ne_nil (c : Char) :
    ∀ l d, l.getLast? = some d → d ≠ c → afterLastC c l ≠ [] := by
  intro l
  induction l with
  | nil => intro d h; cases h
  | cons x xs ih =>
    intro d hlast hd
    rw [afterLastC_cons]
    by_cases hc : c ∈ xs
    · rw [if_pos hc]
      cases xs with
      | nil => cases hc
      | cons y t =>
        rw [List.getLast?_cons_cons] at hlast
        exact ih d hlast hd
    · rw [if_neg hc]
      by_cases hx : x = c
      · rw [if_pos hx]
        cases xs with
        | nil =>
          rw [show ([x] : List Char).getLast? = some x from rfl] at hlast
          cases hlast
          exact absurd hx hd
        | cons y t => simp
      · rw [if_neg hx]
        simp

theorem dropLastSegC_append_left (c : Char) (a b : List Char) (hb : c ∈ b) :
    dropLastSegC c (a ++ b) = a ++ dropLastSegC c b := by
  induction a with
  | nil => rfl
  | cons x a' ih =>
    have hmem : c ∈ a' ++ b := List.mem_append_right a' hb
    rw [List.cons_append, dropLastSegC_cons, if_pos hmem, ih, List.cons_append]

theorem rstripSlash_of_not_ends (s : String) (h : strEnds s "/" = false) :
    rstripSlash s = s := by
  have hpre : (['/'] : List Char).isPrefixOf s.data.reverse = false := by
    unfold strEnds at h
    rw [show ("/" : String).data = ['/'] from rfl] at h
    unfold List.isSuffixOf at h
    rw [show (['/'] : List Char).reverse = ['/'] from rfl] at h
    exact h
  unfold rstripSlash
  cases s with
  | mk d =>
    show String.mk (d.reverse.dropWhile (· = '/')).reverse = String.mk d
    cases hrev : d.reverse with
    | nil =>
      have hd : d = [] := by simpa using congrArg List.reverse hrev
      subst hd
      rfl
    | cons h0 t =>
      rw [hrev] at hpre
      have hne : ¬ (h0 = '/') := by
        intro he
        subst he
        simp [List.isPrefixOf] at hpre
      rw [List.dropWhile_cons, if_neg (by simpa using hne), ← hrev,
        List.reverse_reverse]

theorem parseLoop_some (dd : String) (fs : Fs) (parts : List String)
    (rawNoQ : String) :
    ∀ i r, parseLoop dd fs parts rawNoQ i = some r →
      ∃ k, r = (potentialDir dd parts k, suffixPath rawNoQ parts k) := by
  intro i
  induction i with
  | zero => intro r h; cases h
  | succ n ih =>
    intro r h
    unfold parseLoop at h
    by_cases hm : markerB dd fs parts (n + 1) = true
    · rw [if_pos hm] at h
      exact ⟨n + 1, (Option.some.inj h).symm⟩
    · rw [if_neg hm] at h
      exact ih r h

theorem strStarts_slash_append (x : String) : strStarts ("/" ++ x) "/" = true := by
  simp [strStarts, String.data_append, List.isPrefixOf,
    show ("/" : String).data = ['/'] from rfl]

theorem suffixPath_starts (rawNoQ : String) (parts : List String) (k : Nat) :
    strStarts (suffixPath rawNoQ parts k) "/" = true := by
  show strStarts
    (if strEnds rawNoQ "/" = true ∧ "/" ++ joinSep "/" (List.drop k parts) ≠ "/"
      then ("/" ++ joinSep "/" (List.drop k parts)) ++ "/"
      else "/" ++ joinSep "/" (List.drop k parts)) "/" = true
  split
  · rw [String.append_assoc]
    exact strStarts_slash_append _
  · exact strStarts_slash_append _

theorem parse_path_snd_starts (dd : String) (fs : Fs) (raw : String) :
    strStarts (parse_path dd fs raw).2 "/" = true := by
  unfold parse_path
  by_cases hp : requestParts raw = []
  · rw [if_pos hp]
    rfl
  · rw [if_neg hp]
    cases h : parseLoop dd fs (requestParts raw) (beforeQuery raw)
        (requestParts raw).length with
    | none => rfl
    | some r =>
      obtain ⟨k, hk⟩ := parseLoop_some dd fs (requestParts raw) (beforeQuery raw) _ r h
      subst hk
      exact suffixPath_starts _ _ _

theorem strStarts_slash_data (s : String) (h : strStarts s "/" = true) :
    ∃ rest, s.data = '/' :: rest := by
  unfold strStarts at h
  rw [show ("/" : String).data = ['/'] from rfl] at h
  cases hd : s.data with
  | nil =>
    rw [hd] at h
    simp [List.isPrefixOf] at h
  | cons x t =>
    rw [hd] at h
    simp [List.isPrefixOf] at h
    exact ⟨t, by rw [h]⟩

theorem getLast_ne_slash (s : String) (hne : s.data ≠ [])
    (h : strEnds s "/" = false) :
    ∃ d, s.data.getLast? = some d ∧ d ≠ '/' := by
  have hpre : (['/'] : List Char).isPrefixOf s.data.reverse = false := h
  cases hrev : s.data.reverse with
  | nil => exact absurd (by simpa using congrArg List.reverse hrev) hne
  | cons h0 t =>
    refine ⟨h0, ?_, ?_⟩
    · rw [List.getLast?_eq_head?_reverse, hrev]
      rfl
    · intro he
      subst he
      rw [hrev] at hpre
      simp [List.isPrefixOf] at hpre

/-- The query-string suffix the handler re-attaches to a relative redirect:
`"?" + query` when the raw request carried one, nothing otherwise. -/
def querySuffix (raw : String) : String :=
  match afterQuery raw with
  | some q => "?" ++ q
  | none => ""

/-- Claim C9: for every built project (marker present, output `index.html`
present, no `building`/`failed` record, no rebuild trigger) whose resolved
filesystem target is a directory while the handler's request path does not end
in a separator, `do_GET` answers a 301 redirect whose target is the relative
reference "last path segment + `/`" with the query string preserved; resolved
against the request URL (drop the last segment of the base path, append the
reference) this is exactly the same path with a trailing separator appended.
Nothing is served implicitly, no build starts and the build mapping is
unchanged. -/
theorem c9_dir_redirect (dd jbu : String) (fs : Fs) (builds : BuildMap)
    (raw : String) (now : Nat)
    (hq : qsGet (queryOf raw) "rebuild" ≠ ["1"])
    (hm : fs.existsP (joinP (parse_path dd fs raw).1 "myst.yml") = true)
    (hb1 : ((bmFind builds (parse_path dd fs raw).1).map fun r => r.status) ≠
      some BStatus.building)
    (hb2 : ((bmFind builds (parse_path dd fs raw).1).map fun r => r.status) ≠
      some BStatus.failed)
    (hidx : fs.existsP (joinP (joinP (joinP (parse_path dd fs raw).1 "_build")
      "html") "index.html") = true)
    (hdir : fs.isdir (joinP (joinP (joinP (parse_path dd fs raw).1 "_build")
      "html") (lstripSlash (parse_path dd fs raw).2)) = true)
    (hslash : strEnds (parse_path dd fs raw).2 "/" = false) :
    (doGET dd jbu fs builds raw now).response =
      .redirect301 (String.mk (afterLastC '/' (parse_path dd fs raw).2.data) ++
        "/" ++ querySuffix raw) ∧
    String.mk (dropLastSegC '/' (parse_path dd fs raw).2.data) ++
      (String.mk (afterLastC '/' (parse_path dd fs raw).2.data) ++ "/") =
      (parse_path dd fs raw).2 ++ "/" ∧
    (∀ pre : List Char,
      dropLastSegC '/' (pre ++ (parse_path dd fs raw).2.data) =
        pre ++ dropLastSegC '/' (parse_path dd fs raw).2.data) ∧
    (doGET dd jbu fs builds raw now).builds = builds ∧
    (doGET dd jbu fs builds raw now).launched = [] := by
  obtain ⟨rest, hfp⟩ := strStarts_slash_data _ (parse_path_snd_starts dd fs raw)
  have hslashmem : '/' ∈ (parse_path dd fs raw).2.data := by
    rw [hfp]
    exact List.mem_cons_self _ _
  have hnil : (parse_path dd fs raw).2.data ≠ [] := by
    rw [hfp]
    simp
  obtain ⟨d, hd, hdne⟩ := getLast_ne_slash _ hnil hslash
  have halne : afterLastC '/' (parse_path dd fs raw).2.data ≠ [] :=
    afterLastC_ne_nil '/' _ d hd hdne
  have hlastne : String.mk (afterLastC '/' (parse_path dd fs raw).2.data) ≠ "" :=
    fun he => halne (congrArg String.data he)
  unfold doGET
  rw [if_neg (fun hc => hq hc.1), if_neg (fun hc => hc hm), if_neg hb1,
    if_neg hb2, if_neg (fun hc => hc hidx),
    if_pos ⟨hdir, (by simp [hslash] : ¬ strEnds (parse_path dd fs raw).2 "/" = true)⟩,
    rstripSlash_of_not_ends _ hslash, List.getLastD_eq_getLast?,
    List.getLast?_map, splitOnChar_getLast?]
  simp only [Option.map_some', Option.getD_some]
  rw [if_pos hlastne]
  refine ⟨?_, ?_, ?_, ?_, ?_⟩
  · rcases haq : afterQuery raw with _ | q
    · unfold querySuffix
      rw [haq, String.append_empty]
    · unfold querySuffix
      rw [haq]
      exact congrArg Resp.redirect301 (String.append_assoc _ "?" q)
  · have hlist : dropLastSegC '/' (parse_path dd fs raw).2.data ++
        (afterLastC '/' (parse_path dd fs raw).2.data ++ ['/']) =
        (parse_path dd fs raw).2.data ++ ['/'] := by
      rw [← List.append_assoc, dropLastSegC_append_afterLastC]
    exact congrArg String.mk hlist
  · intro pre
    exact dropLastSegC_append_left '/' pre _ hslashmem
  · trivial
  · trivial

/-- Witness for C9 at a concrete built project: request `/p/sub?z=3` whose
target is the directory `sub` of the output root answers a relative 301 to
`sub/?z=3`. -/
theorem c9_dir_redirect_witness :
    (doGET "/r" "/user/alice/"
        { files := ["/r/p/myst.yml", "/r/p/_build/html/index.html"],
          dirs := ["/r/p/_build/html/sub"] } [] "/p/sub?z=3" 0).response =
      .redirect301 "sub/?z=3" := by
  have h := c9_dir_redirect "/r" "/user/alice/"
    { files := ["/r/p/myst.yml", "/r/p/_build/html/index.html"],
      dirs := ["/r/p/_build/html/sub"] } [] "/p/sub?z=3" 0
    (by decide) (by decide) (by decide) (by decide) (by decide) (by decide)
    (by decide)
  exact h.1.trans (by decide)

/-! ### Claim C3 (amended): canonicalization of the resolved root -/

/-- A segment that survives `normpath`: non-empty and not a traversal
segment. -/
def goodSeg (s : String) : Prop := s ≠ "" ∧ s ≠ "." ∧ s ≠ ".."

theorem normSegs_aux_mem (xs : List String) :
    ∀ acc s, s ∈ xs.foldl normStep acc → s ∈ acc ∨ s ∈ xs := by
  induction xs with
  | nil => intro acc s h; exact Or.inl h
  | cons x t ih =>
    intro acc s h
    rw [List.foldl_cons] at h
    rcases ih (normStep acc x) s h with h1 | h1
    · unfold normStep at h1
      split_ifs at h1 with h2 h3
      · exact Or.inl h1
      · exact Or.inl (List.dropLast_subset acc h1)
      · rcases List.mem_append.mp h1 with h4 | h4
        · exact Or.inl h4
        · exact Or.inr (by
            rw [List.mem_singleton.mp h4]
            exact List.mem_cons_self x t)
    · exact Or.inr (List.mem_cons_of_mem x h1)

theorem normSegs_aux_good (xs : List String) :
    ∀ acc, (∀ s ∈ acc, goodSeg s) → ∀ s ∈ xs.foldl normStep acc, goodSeg s := by
  induction xs with
  | nil => intro acc hacc s h; exact hacc s h
  | cons x t ih =>
    intro acc hacc s h
    rw [List.foldl_cons] at h
    refine ih (normStep acc x) ?_ s h
    intro z hz
    unfold normStep at hz
    split_ifs at hz with h2 h3
    · exact hacc z hz
    · exact hacc z (List.dropLast_subset acc hz)
    · rcases List.mem_append.mp hz with h4 | h4
      · exact hacc z h4
      · have h5 := List.mem_singleton.mp h4
        subst h5
        refine ⟨?_, ?_, h3⟩
        · intro he
          exact h2 (Or.inl he)
        · intro he
          exact h2 (Or.inr he)

theorem normSegs_good (xs : List String) : ∀ s ∈ normSegs xs, goodSeg s :=
  normSegs_aux_good xs [] (by intro s h; cases h)

theorem normSegs_mem (xs : List String) : ∀ s ∈ normSegs xs, s ∈ xs := by
  intro s h
  rcases normSegs_aux_mem xs [] s h with h1 | h1
  · cases h1
  · exact h1

theorem normSegs_fixed (xs : List String) (h : ∀ s ∈ xs, goodSeg s) :
    normSegs xs = xs := by
  have aux : ∀ (ys acc : List String), (∀ s ∈ ys, goodSeg s) →
      List.foldl normStep acc ys = acc ++ ys := by
    intro ys
    induction ys with
    | nil => intro acc _; simp
    | cons x t ih =>
      intro acc hy
      rw [List.foldl_cons]
      have hx : goodSeg x := hy x (List.mem_cons_self x t)
      have hstep : normStep acc x = acc ++ [x] := by
        unfold normStep
        rw [if_neg (by
          intro hc
          rcases hc with hc | hc
          · exact hx.1 hc
          · exact hx.2.1 hc), if_neg hx.2.2]
      rw [hstep, ih (acc ++ [x]) fun s hs => hy s (List.mem_cons_of_mem x hs)]
      simp
  exact aux xs [] h

theorem splitOnChar_no_mem_sep (c : Char) (l : List Char) :
    ∀ a ∈ splitOnChar c l, c ∉ a := by
  induction l with
  | nil =>
    intro a ha
    rw [show splitOnChar c [] = [[]] from rfl, List.mem_singleton] at ha
    subst ha
    simp
  | cons x xs ih =>
    intro a ha
    rw [splitOnChar_cons] at ha
    by_cases hx : x = c
    · rw [if_pos hx] at ha
      rcases List.mem_cons.mp ha with h | h
      · subst h
        simp
      · exact ih a h
    · rw [if_neg hx] at ha
      cases hs : splitOnChar c xs with
      | nil => exact absurd hs (splitOnChar_ne_nil c xs)
      | cons b r =>
        rw [hs] at ha
        rcases List.mem_cons.mp ha with h | h
        · subst h
          intro hc
          rcases List.mem_cons.mp hc with hc | hc
          · exact hx hc.symm
          · exact ih b (hs ▸ List.mem_cons_self b r) hc
        · exact ih a (hs ▸ List.mem_cons_of_mem b h)

theorem splitOnChar_append_sep (c : Char) (a r : List Char) (ha : c ∉ a) :
    splitOnChar c (a ++ c :: r) = a :: splitOnChar c r := by
  induction a with
  | nil =>
    rw [List.nil_append, splitOnChar_cons, if_pos rfl]
  | cons x t ih =>
    have hx : ¬ x = c := fun he => ha (he ▸ List.mem_cons_self x t)
    have ht : c ∉ t := fun hm => ha (List.mem_cons_of_mem x hm)
    rw [List.cons_append, splitOnChar_cons, if_neg hx, ih ht]

theorem joinSep_split (segs : List String) (hne : segs ≠ [])
    (hfree : ∀ x ∈ segs, '/' ∉ x.data) :
    splitOnChar '/' (joinSep "/" segs).data = segs.map String.data := by
  induction segs with
  | nil => exact absurd rfl hne
  | cons x t ih =>
    cases t with
    | nil =>
      show splitOnChar '/' x.data = [x.data]
      exact splitOnChar_no_sep '/' x.data (hfree x (List.mem_cons_self x []))
    | cons y u =>
      have hd : (joinSep "/" (x :: y :: u)).data =
          x.data ++ '/' :: (joinSep "/" (y :: u)).data := by
        show (x ++ "/" ++ joinSep "/" (y :: u)).data = _
        rw [String.data_append, String.data_append]
        rw [show ("/" : String).data = ['/'] from rfl]
        rw [List.append_assoc]
        rfl
      rw [hd, splitOnChar_append_sep '/' x.data _
        (hfree x (List.mem_cons_self x (y :: u))),
        ih (by simp) fun z hz => hfree z (List.mem_cons_of_mem x hz)]
      rfl

theorem map_mk_data (segs : List String) :
    (segs.map String.data).map String.mk = segs := by
  induction segs with
  | nil => rfl
  | cons x t ih =>
    rw [List.map_cons, List.map_cons, ih]

theorem abspath_eq (p : String) :
    abspath p =
      if normSegs ((splitOnChar '/' p.data).map String.mk) = [] then "/"
      else "/" ++ joinSep "/" (normSegs ((splitOnChar '/' p.data).map String.mk)) :=
  rfl

theorem abspath_idem (p : String) : abspath (abspath p) = abspath p := by
  cases hseg : normSegs ((splitOnChar '/' p.data).map String.mk) with
  | nil =>
    have h1 : abspath p = "/" := by
      rw [abspath_eq, hseg, if_pos rfl]
    rw [h1]
    decide
  | cons s ss =>
    have h1 : abspath p = "/" ++ joinSep "/" (s :: ss) := by
      rw [abspath_eq, hseg, if_neg (by simp)]
    rw [h1]
    have hgood : ∀ z ∈ s :: ss, goodSeg z := by
      intro z hz
      exact normSegs_good _ z (hseg ▸ hz)
    have hfree : ∀ z ∈ s :: ss, '/' ∉ z.data := by
      intro z hz
      have hmem := normSegs_mem _ z (hseg ▸ hz)
      rcases List.mem_map.mp hmem with ⟨a, ha, hza⟩
      subst hza
      exact splitOnChar_no_mem_sep '/' p.data a ha
    have hsplit : splitOnChar '/' ("/" ++ joinSep "/" (s :: ss)).data =
        [] :: (s :: ss).map String.data := by
      rw [show ("/" ++ joinSep "/" (s :: ss)).data =
        '/' :: (joinSep "/" (s :: ss)).data from rfl]
      rw [splitOnChar_cons, if_pos rfl,
        joinSep_split (s :: ss) (by simp) hfree]
    have hn : normSegs ("" :: s :: ss) = s :: ss := by
      show (("" :: s :: ss).foldl normStep []) = s :: ss
      rw [List.foldl_cons]
      rw [show normStep [] "" = [] from rfl]
      exact normSegs_fixed (s :: ss) hgood
    rw [abspath_eq, hsplit]
    rw [show ([] :: (s :: ss).map String.data).map String.mk =
      "" :: ((s :: ss).map String.data).map String.mk from rfl]
    rw [map_mk_data, hn, if_neg (by simp)]

/-- Claim C3 (amended): every candidate directory the resolver tests for the
marker file, and the project root it finally returns, is passed through
`os.path.abspath` first, so `.`/`..` segments are resolved before any marker
check or filesystem access: assuming the configured content root is canonical,
the resolved project root is always a fixed point of `abspath` (no traversal
segment survives).  Canonicalization alone, however, does not confine the root
to the content root (see the counterexample). -/
theorem c3_amended_canonical (dd : String) (fs : Fs) (raw : String)
    (hdd : abspath dd = dd) :
    abspath (parse_path dd fs raw).1 = (parse_path dd fs raw).1 := by
  unfold parse_path
  by_cases hp : requestParts raw = []
  · rw [if_pos hp]
    exact hdd
  · rw [if_neg hp]
    cases h : parseLoop dd fs (requestParts raw) (beforeQuery raw)
        (requestParts raw).length with
    | none => exact abspath_idem _
    | some r =>
      obtain ⟨k, hk⟩ := parseLoop_some dd fs (requestParts raw)
        (beforeQuery raw) _ r h
      subst hk
      exact abspath_idem _

/-- Witness for C3 (amended): a request full of traversal and dot segments
resolves to a canonical root. -/
theorem c3_amended_canonical_witness :
    abspath (parse_path "/home/u" { files := [], dirs := [] }
        "/a/../b/./c").1 =
      (parse_path "/home/u" { files := [], dirs := [] } "/a/../b/./c").1 :=
  c3_amended_canonical "/home/u" { files := [], dirs := [] } "/a/../b/./c"
    (by decide)

/-! ### Claim C5: idempotence analysis of the URL rewrite -/

/-- The pattern tail `url":"/` (the regex literal without its opening quote):
a new match can begin at a quote exactly when this follows. -/
def U7 : List Char := ['u', 'r', 'l', '"', ':', '"', '/']

theorem splitAtQuote_some (cs : List Char) :
    ∀ a b, splitAtQuote cs = some (a, b) → cs = a ++ '"' :: b ∧ '"' ∉ a := by
  induction cs with
  | nil => intro a b h; cases h
  | cons c t ih =>
    intro a b h
    unfold splitAtQuote at h
    by_cases hc : c = '"'
    · rw [if_pos hc] at h
      cases h
      subst hc
      exact ⟨rfl, by simp⟩
    · rw [if_neg hc] at h
      cases hs : splitAtQuote t with
      | none => rw [hs] at h; cases h
      | some p =>
        rw [hs] at h
        cases h
        obtain ⟨h1, h2⟩ := ih p.1 p.2 hs
        constructor
        · rw [List.cons_append, ← h1]
        · intro hmem
          rcases List.mem_cons.mp hmem with hm | hm
          · exact hc hm.symm
          · exact h2 hm

theorem splitAtQuote_none (cs : List Char) :
    splitAtQuote cs = none → '"' ∉ cs := by
  induction cs with
  | nil => intro _ h; cases h
  | cons c t ih =>
    intro h hmem
    unfold splitAtQuote at h
    by_cases hc : c = '"'
    · rw [if_pos hc] at h; cases h
    · rw [if_neg hc] at h
      cases hs : splitAtQuote t with
      | some p => rw [hs] at h; cases h
      | none =>
        rcases List.mem_cons.mp hmem with hm | hm
        · exact hc hm.symm
        · exact ih hs hm

theorem grabRun_cons (c : Char) (cs : List Char) :
    grabRun (c :: cs) =
      if c = '"' then none
      else
        match splitAtQuote cs with
        | some r => some (c :: r.1, r.2)
        | none => none := rfl

theorem grabRun_some (t : List Char) :
    ∀ r rest, grabRun t = some (r, rest) →
      t = r ++ '"' :: rest ∧ r ≠ [] ∧ '"' ∉ r := by
  intro r rest h
  cases t with
  | nil => cases h
  | cons c cs =>
    rw [grabRun_cons] at h
    by_cases hc : c = '"'
    · rw [if_pos hc] at h; cases h
    · rw [if_neg hc] at h
      cases hs : splitAtQuote cs with
      | none => rw [hs] at h; cases h
      | some p =>
        rw [hs] at h
        cases h
        obtain ⟨h1, h2⟩ := splitAtQuote_some cs p.1 p.2 hs
        refine ⟨by rw [List.cons_append, ← h1], by simp, ?_⟩
        intro hmem
        rcases List.mem_cons.mp hmem with hm | hm
        · exact hc hm.symm
        · exact h2 hm

theorem grabRun_none (t : List Char) (h : grabRun t = none) :
    t = [] ∨ (∃ t', t = '"' :: t') ∨ '"' ∉ t := by
  cases t with
  | nil => exact Or.inl rfl
  | cons c cs =>
    rw [grabRun_cons] at h
    by_cases hc : c = '"'
    · exact Or.inr (Or.inl ⟨cs, by rw [hc]⟩)
    · rw [if_neg hc] at h
      cases hs : splitAtQuote cs with
      | some p => rw [hs] at h; cases h
      | none =>
        refine Or.inr (Or.inr ?_)
        intro hmem
        rcases List.mem_cons.mp hmem with hm | hm
        · exact hc hm.symm
        · exact splitAtQuote_none cs hs hm

theorem isPrefixOf_decomp (l1 l2 : List Char) (h : l1.isPrefixOf l2 = true) :
    ∃ t, l2 = l1 ++ t := by
  obtain ⟨t, ht⟩ := List.isPrefixOf_iff_prefix.mp h
  exact ⟨t, ht.symm⟩

theorem isPrefixOf_append_self (l r : List Char) :
    l.isPrefixOf (l ++ r) = true :=
  List.isPrefixOf_iff_prefix.mpr ⟨r, rfl⟩

theorem isPrefixOf_extend (p a : List Char) (x : Char) (z : List Char)
    (h : p.isPrefixOf (a ++ [x]) = true) :
    p.isPrefixOf (a ++ x :: z) = true := by
  obtain ⟨t, ht⟩ := isPrefixOf_decomp p (a ++ [x]) h
  apply List.isPrefixOf_iff_prefix.mpr
  refine ⟨t ++ z, ?_⟩
  rw [show a ++ x :: z = (a ++ [x]) ++ z by simp, ht]
  simp

theorem headMatch_some (s : List Char) (r rest : List Char)
    (h : headMatch s = some (r, rest)) :
    s = LIT8 ++ (r ++ '"' :: rest) ∧ r ≠ [] ∧ '"' ∉ r ∧
      blockedB (r ++ '"' :: rest) = false := by
  unfold headMatch at h
  by_cases hp : LIT8.isPrefixOf s = true
  · rw [if_pos hp] at h
    by_cases hb : blockedB (s.drop 8) = true
    · rw [if_pos hb] at h; cases h
    · rw [if_neg hb] at h
      obtain ⟨t, ht⟩ := isPrefixOf_decomp LIT8 s hp
      have hdrop : s.drop 8 = t := by
        rw [ht]
        exact List.drop_left LIT8 t
      rw [hdrop] at h hb
      obtain ⟨h1, h2, h3⟩ := grabRun_some t r rest h
      subst h1
      exact ⟨ht, h2, h3, by simpa using hb⟩
  · rw [if_neg hp] at h; cases h

theorem headMatch_none_of_not_lit8 (s : List Char)
    (h : ¬ LIT8.isPrefixOf s = true) : headMatch s = none := by
  unfold headMatch
  rw [if_neg h]

theorem headMatch_nonquote (c : Char) (cs : List Char) (h : ¬ c = '"') :
    headMatch (c :: cs) = none := by
  apply headMatch_none_of_not_lit8
  intro hp
  obtain ⟨t, ht⟩ := isPrefixOf_decomp LIT8 (c :: cs) hp
  have : c = '"' := by
    have := congrArg (fun l => l.head?) ht
    simpa [LIT8, LIT7] using this
  exact h this

theorem headMatch_rest_lt (s : List Char) (r rest : List Char)
    (h : headMatch s = some (r, rest)) : rest.length < s.length := by
  obtain ⟨h1, -, -, -⟩ := headMatch_some s r rest h
  rw [h1]
  simp [LIT8, LIT7]
  omega

theorem subUrlsF_succ (base : List Char) (n : Nat) (s : List Char) :
    subUrlsF base (n + 1) s =
      match headMatch s with
      | some (r, rest) => LIT7 ++ base ++ '/' :: (r ++ '"' :: subUrlsF base n rest)
      | none =>
        match s with
        | [] => []
        | c :: cs => c :: subUrlsF base n cs := rfl

theorem headMatch_nil : headMatch ([] : List Char) = none := by
  apply headMatch_none_of_not_lit8
  simp [LIT8, LIT7, List.isPrefixOf]

theorem subUrlsF_nil (base : List Char) (f : Nat) : subUrlsF base f [] = [] := by
  cases f with
  | zero => rfl
  | succ n =>
    rw [subUrlsF_succ]
    simp only [headMatch_nil]

theorem subUrlsF_fuel_eq (base : List Char) :
    ∀ (s : List Char) (f1 f2 : Nat), s.length ≤ f1 → s.length ≤ f2 →
      subUrlsF base f1 s = subUrlsF base f2 s := by
  have main : ∀ (n : Nat) (s : List Char), s.length ≤ n → ∀ f1 f2,
      s.length ≤ f1 → s.length ≤ f2 → subUrlsF base f1 s = subUrlsF base f2 s := by
    intro n
    induction n with
    | zero =>
      intro s hs f1 f2 _ _
      have hnil : s = [] := List.length_eq_zero.mp (Nat.le_zero.mp hs)
      subst hnil
      rw [subUrlsF_nil, subUrlsF_nil]
    | succ n ih =>
      intro s hs f1 f2 h1 h2
      cases s with
      | nil => rw [subUrlsF_nil, subUrlsF_nil]
      | cons c cs =>
        obtain ⟨g1, rfl⟩ : ∃ g, f1 = g + 1 := ⟨f1 - 1, by simp at h1; omega⟩
        obtain ⟨g2, rfl⟩ : ∃ g, f2 = g + 1 := ⟨f2 - 1, by simp at h2; omega⟩
        rw [subUrlsF_succ, subUrlsF_succ]
        cases hm : headMatch (c :: cs) with
        | some p =>
          obtain ⟨r, rest⟩ := p
          have hlt := headMatch_rest_lt _ r rest hm
          simp only [hm]
          have hrec := ih rest (by simp at hs hlt; omega) g1 g2
            (by simp at h1 hlt; omega) (by simp at h2 hlt; omega)
          rw [hrec]
        | none =>
          simp only [hm]
          have hrec := ih cs (by simp at hs; omega) g1 g2
            (by simp at h1; omega) (by simp at h2; omega)
          rw [hrec]
  exact fun s f1 f2 h1 h2 => main s.length s (Nat.le_refl _) f1 f2 h1 h2

theorem subUrls_cons_none (base : List Char) (c : Char) (cs : List Char)
    (h : headMatch (c :: cs) = none) :
    subUrls base (c :: cs) = c :: subUrls base cs := by
  unfold subUrls
  rw [show (c :: cs).length = cs.length + 1 from rfl, subUrlsF_succ]
  simp only [h]

theorem subUrls_match (base : List Char) (s r rest : List Char)
    (h : headMatch s = some (r, rest)) :
    subUrls base s = LIT7 ++ base ++ '/' :: (r ++ '"' :: subUrls base rest) := by
  unfold subUrls
  have hlt := headMatch_rest_lt s r rest h
  obtain ⟨m, hm⟩ : ∃ m, s.length = m + 1 := ⟨s.length - 1, by omega⟩
  rw [hm, subUrlsF_succ]
  simp only [h]
  rw [subUrlsF_fuel_eq base rest m rest.length (by omega) (Nat.le_refl _)]

/-- Fuelled scan checking that no match's closing quote is immediately reused
as the opening quote of a further `"url":"/…"` pattern (the overlap the
counterexample exploits). -/
def scanOkF : Nat → List Char → Bool
  | 0, _ => true
  | fuel + 1, s =>
    match headMatch s with
    | some (_, rest) => !(U7.isPrefixOf rest) && scanOkF fuel rest
    | none =>
      match s with
      | [] => true
      | _ :: cs => scanOkF fuel cs

/-- The body is overlap-free: after each match of the rewrite pattern, the
text after the consumed closing quote does not itself begin with `url":"/`. -/
def scanOk (s : List Char) : Bool := scanOkF s.length s

theorem scanOkF_succ (n : Nat) (s : List Char) :
    scanOkF (n + 1) s =
      match headMatch s with
      | some (_, rest) => !(U7.isPrefixOf rest) && scanOkF n rest
      | none =>
        match s with
        | [] => true
        | _ :: cs => scanOkF n cs := rfl

theorem scanOkF_nil (f : Nat) : scanOkF f [] = true := by
  cases f with
  | zero => rfl
  | succ n =>
    rw [scanOkF_succ]
    simp only [headMatch_nil]

theorem scanOkF_fuel_eq :
    ∀ (s : List Char) (f1 f2 : Nat), s.length ≤ f1 → s.length ≤ f2 →
      scanOkF f1 s = scanOkF f2 s := by
  have main : ∀ (n : Nat) (s : List Char), s.length ≤ n → ∀ f1 f2,
      s.length ≤ f1 → s.length ≤ f2 → scanOkF f1 s = scanOkF f2 s := by
    intro n
    induction n with
    | zero =>
      intro s hs f1 f2 _ _
      have hnil : s = [] := List.length_eq_zero.mp (Nat.le_zero.mp hs)
      subst hnil
      rw [scanOkF_nil, scanOkF_nil]
    | succ n ih =>
      intro s hs f1 f2 h1 h2
      cases s with
      | nil => rw [scanOkF_nil, scanOkF_nil]
      | cons c cs =>
        obtain ⟨g1, rfl⟩ : ∃ g, f1 = g + 1 := ⟨f1 - 1, by simp at h1; omega⟩
        obtain ⟨g2, rfl⟩ : ∃ g, f2 = g + 1 := ⟨f2 - 1, by simp at h2; omega⟩
        rw [scanOkF_succ, scanOkF_succ]
        cases hm : headMatch (c :: cs) with
        | some p =>
          obtain ⟨r, rest⟩ := p
          have hlt := headMatch_rest_lt _ r rest hm
          simp only [hm]
          rw [ih rest (by simp at hs hlt; omega) g1 g2
            (by simp at h1 hlt; omega) (by simp at h2 hlt; omega)]
        | none =>
          simp only [hm]
          rw [ih cs (by simp at hs; omega) g1 g2
            (by simp at h1; omega) (by simp at h2; omega)]
  exact fun s f1 f2 h1 h2 => main s.length s (Nat.le_refl _) f1 f2 h1 h2

theorem scanOk_cons_none (c : Char) (cs : List Char)
    (h : headMatch (c :: cs) = none) : scanOk (c :: cs) = scanOk cs := by
  unfold scanOk
  rw [show (c :: cs).length = cs.length + 1 from rfl, scanOkF_succ]
  simp only [h]

theorem scanOk_match (s r rest : List Char)
    (h : headMatch s = some (r, rest)) :
    scanOk s = (!(U7.isPrefixOf rest) && scanOk rest) := by
  unfold scanOk
  have hlt := headMatch_rest_lt s r rest h
  obtain ⟨m, hm⟩ : ∃ m, s.length = m + 1 := ⟨s.length - 1, by omega⟩
  rw [hm, scanOkF_succ]
  simp only [h]
  rw [scanOkF_fuel_eq rest m rest.length (by omega) (Nat.le_refl _)]

theorem subUrls_append_noquote (base : List Char) (x y : List Char)
    (hx : '"' ∉ x) : subUrls base (x ++ y) = x ++ subUrls base y := by
  induction x with
  | nil => rfl
  | cons c t ih =>
    have hc : ¬ c = '"' := fun he => hx (he ▸ List.mem_cons_self c t)
    rw [List.cons_append,
      subUrls_cons_none base c (t ++ y) (headMatch_nonquote c (t ++ y) hc),
      ih fun hm => hx (List.mem_cons_of_mem c hm), List.cons_append]

theorem subUrls_id_of_noquote (base : List Char) (x : List Char)
    (hx : '"' ∉ x) : subUrls base x = x := by
  have h := subUrls_append_noquote base x [] hx
  rw [List.append_nil] at h
  rw [h]
  rw [show subUrls base [] = [] from rfl, List.append_nil]

theorem subUrls_decomp (base : List Char) :
    ∀ s, subUrls base s = s ∨
      ∃ a r rest, s = a ++ (LIT8 ++ (r ++ '"' :: rest)) ∧
        subUrls base s =
          a ++ (LIT7 ++ base ++ '/' :: (r ++ '"' :: subUrls base rest)) := by
  have main : ∀ (n : Nat) (s : List Char), s.length ≤ n →
      (subUrls base s = s ∨
        ∃ a r rest, s = a ++ (LIT8 ++ (r ++ '"' :: rest)) ∧
          subUrls base s =
            a ++ (LIT7 ++ base ++ '/' :: (r ++ '"' :: subUrls base rest))) := by
    intro n
    induction n with
    | zero =>
      intro s hs
      have hnil : s = [] := List.length_eq_zero.mp (Nat.le_zero.mp hs)
      subst hnil
      exact Or.inl rfl
    | succ n ih =>
      intro s hs
      cases hm : headMatch s with
      | some p =>
        obtain ⟨r, rest⟩ := p
        obtain ⟨h1, -, -, -⟩ := headMatch_some s r rest hm
        right
        refine ⟨[], r, rest, by simpa using h1, ?_⟩
        simpa using subUrls_match base s r rest hm
      | none =>
        cases s with
        | nil => exact Or.inl rfl
        | cons c cs =>
          rcases ih cs (by simp at hs; omega) with h | ⟨a, r, rest, ha1, ha2⟩
          · left
            rw [subUrls_cons_none base c cs hm, h]
          · right
            refine ⟨c :: a, r, rest, by rw [List.cons_append, ← ha1], ?_⟩
            rw [subUrls_cons_none base c cs hm, ha2, List.cons_append]
  intro s
  exact main s.length s (Nat.le_refl _)

theorem preU7 (base : List Char) (hhead : base.head? = some '/') :
    ∀ t, U7.isPrefixOf t = false → U7.isPrefixOf (subUrls base t) = false := by
  obtain ⟨bt, rfl⟩ : ∃ bt, base = '/' :: bt := by
    cases base with
    | nil => cases hhead
    | cons b bs => exact ⟨bs, by rw [Option.some.inj hhead]⟩
  intro t ht
  rcases subUrls_decomp ('/' :: bt) t with h | ⟨a, r, rest, h1, h2⟩
  · rw [h]
    exact ht
  · rw [h2]
    subst h1
    match a with
    | [] => simp [U7, LIT7, List.isPrefixOf]
    | [c1] => simp [U7, LIT7, List.isPrefixOf]
    | [c1, c2] => simp [U7, LIT7, List.isPrefixOf]
    | [c1, c2, c3] => simp [U7, LIT7, List.isPrefixOf]
    | [c1, c2, c3, c4] => simp [U7, LIT7, List.isPrefixOf]
    | [c1, c2, c3, c4, c5] => simp [U7, LIT7, List.isPrefixOf]
    | [c1, c2, c3, c4, c5, c6] => simp [U7, LIT7, List.isPrefixOf]
    | c1 :: c2 :: c3 :: c4 :: c5 :: c6 :: c7 :: a' =>
      simp only [U7, List.isPrefixOf, List.cons_append, Bool.and_eq_false_iff] at ht ⊢
      simpa [List.isPrefixOf] using ht

theorem subUrls_U7 (base : List Char) (t : List Char) :
    subUrls base (U7 ++ t) = U7 ++ subUrls base t := by
  have h3 : headMatch ('"' :: ':' :: '"' :: '/' :: t) = none := by
    apply headMatch_none_of_not_lit8
    simp [LIT8, LIT7, List.isPrefixOf]
  have h5 : headMatch ('"' :: '/' :: t) = none := by
    apply headMatch_none_of_not_lit8
    simp [LIT8, LIT7, List.isPrefixOf]
  show subUrls base ('u' :: 'r' :: 'l' :: '"' :: ':' :: '"' :: '/' :: t) = _
  rw [subUrls_cons_none _ _ _ (headMatch_nonquote _ _ (by decide)),
    subUrls_cons_none _ _ _ (headMatch_nonquote _ _ (by decide)),
    subUrls_cons_none _ _ _ (headMatch_nonquote _ _ (by decide)),
    subUrls_cons_none _ _ _ h3,
    subUrls_cons_none _ _ _ (headMatch_nonquote _ _ (by decide)),
    subUrls_cons_none _ _ _ h5,
    subUrls_cons_none _ _ _ (headMatch_nonquote _ _ (by decide))]
  rfl

theorem grabRun_quote (z : List Char) : grabRun ('"' :: z) = none := by
  rw [grabRun_cons, if_pos rfl]

theorem subUrls_quote_head (base : List Char) (t' : List Char) :
    ∃ z, subUrls base ('"' :: t') = '"' :: z := by
  cases hm : headMatch ('"' :: t') with
  | some p =>
    rw [subUrls_match base _ p.1 p.2 (by rw [hm])]
    exact ⟨_, rfl⟩
  | none =>
    rw [subUrls_cons_none _ _ _ hm]
    exact ⟨_, rfl⟩

theorem headMatch_quote_u7 (X t : List Char) (h : X = U7 ++ t) :
    headMatch ('"' :: X) = if blockedB t then none else grabRun t := by
  subst h
  unfold headMatch
  have hpre : LIT8.isPrefixOf ('"' :: (U7 ++ t)) = true := by
    rw [show ('"' :: (U7 ++ t)) = LIT8 ++ t from rfl]
    exact isPrefixOf_append_self LIT8 t
  rw [if_pos hpre]
  rw [show (('"' :: (U7 ++ t)) : List Char).drop 8 = t from by
    rw [show ('"' :: (U7 ++ t)) = LIT8 ++ t from rfl]
    exact List.drop_left LIT8 t]

theorem headMatch_none_preserved (bt : List Char)
    (c : Char) (cs : List Char) (h : headMatch (c :: cs) = none) :
    headMatch (c :: subUrls ('/' :: bt) cs) = none := by
  by_cases hc : c = '"'
  case neg => exact headMatch_nonquote _ _ hc
  subst hc
  by_cases hU : U7.isPrefixOf cs = true
  case neg =>
    have hfalse : U7.isPrefixOf cs = false := by
      cases hcs : U7.isPrefixOf cs with
      | true => exact absurd hcs hU
      | false => rfl
    have hout := preU7 ('/' :: bt) rfl cs hfalse
    apply headMatch_none_of_not_lit8
    rw [show (LIT8 : List Char) = '"' :: U7 from rfl]
    simp [List.isPrefixOf, hout]
  case pos =>
    obtain ⟨t, rfl⟩ := isPrefixOf_decomp U7 cs hU
    rw [subUrls_U7, headMatch_quote_u7 _ (subUrls ('/' :: bt) t) rfl]
    rw [headMatch_quote_u7 _ t rfl] at h
    by_cases hb : blockedB t = true
    · have hb2 : TOKM.isPrefixOf t = true ∨ TOKU.isPrefixOf t = true := by
        simpa [blockedB] using hb
      have hbo : blockedB (subUrls ('/' :: bt) t) = true := by
        rcases hb2 with h1 | h1
        · obtain ⟨t', rfl⟩ := isPrefixOf_decomp TOKM t h1
          unfold blockedB
          rw [subUrls_append_noquote _ TOKM t' (by decide),
            isPrefixOf_append_self]
          simp
        · obtain ⟨t', rfl⟩ := isPrefixOf_decomp TOKU t h1
          unfold blockedB
          rw [subUrls_append_noquote _ TOKU t' (by decide),
            isPrefixOf_append_self]
          simp
      rw [if_pos hbo]
    · rw [if_neg hb] at h
      rcases grabRun_none t h with h1 | ⟨t', rfl⟩ | h1
      · subst h1
        rw [show subUrls ('/' :: bt) [] = [] from rfl]
        rw [if_neg (by decide : ¬ blockedB ([] : List Char) = true)]
        rfl
      · obtain ⟨z, hz⟩ := subUrls_quote_head ('/' :: bt) t'
        rw [hz]
        by_cases hbb : blockedB ('"' :: z) = true
        · rw [if_pos hbb]
        · rw [if_neg hbb]
          exact grabRun_quote z
      · rw [subUrls_id_of_noquote _ t h1, if_neg hb]
        exact h

/-- The shape of rewrite bases for which the negative lookahead excludes every
URL the rewrite itself has produced: a leading slash, the following text
beginning (once a slash is appended) with `myst-build/` or `user/`, and no
quote character inside. -/
def GoodBase (base : List Char) : Prop :=
  base.head? = some '/' ∧
  (TOKM.isPrefixOf (base.tail ++ ['/']) = true ∨
    TOKU.isPrefixOf (base.tail ++ ['/']) = true) ∧
  '"' ∉ base

instance (base : List Char) : Decidable (GoodBase base) := by
  unfold GoodBase
  infer_instance

theorem subUrls_idem (base : List Char) (hg : GoodBase base) :
    ∀ s, scanOk s = true → subUrls base (subUrls base s) = subUrls base s := by
  obtain ⟨hhead, hblock, hnq⟩ := hg
  obtain ⟨bt, rfl⟩ : ∃ bt, base = '/' :: bt := by
    cases base with
    | nil => cases hhead
    | cons b bs => exact ⟨bs, by rw [Option.some.inj hhead]⟩
  have hbtq : '"' ∉ bt := fun hm => hnq (List.mem_cons_of_mem _ hm)
  have main : ∀ (n : Nat) (s : List Char), s.length ≤ n → scanOk s = true →
      subUrls ('/' :: bt) (subUrls ('/' :: bt) s) = subUrls ('/' :: bt) s := by
    intro n
    induction n with
    | zero =>
      intro s hs _
      have hnil : s = [] := List.length_eq_zero.mp (Nat.le_zero.mp hs)
      subst hnil
      rfl
    | succ n ih =>
      intro s hs hok
      cases hm : headMatch s with
      | none =>
        cases s with
        | nil => rfl
        | cons c cs =>
          rw [subUrls_cons_none _ _ _ hm,
            subUrls_cons_none _ _ _ (headMatch_none_preserved bt c cs hm),
            ih cs (by simp at hs; omega)
              (by rw [← scanOk_cons_none c cs hm]; exact hok)]
      | some p =>
        obtain ⟨r, rest⟩ := p
        obtain ⟨hs1, hrne, hrq, hbl⟩ := headMatch_some s r rest hm
        have hrest_lt := headMatch_rest_lt s r rest hm
        have hok2 : U7.isPrefixOf rest = false ∧ scanOk rest = true := by
          rw [scanOk_match s r rest hm] at hok
          simpa using hok
        have hblk : blockedB
            (bt ++ '/' :: (r ++ '"' :: subUrls ('/' :: bt) rest)) = true := by
          unfold blockedB
          rcases hblock with h1 | h1
          · rw [isPrefixOf_extend TOKM bt '/'
              (r ++ '"' :: subUrls ('/' :: bt) rest) (by simpa using h1)]
            simp
          · rw [isPrefixOf_extend TOKU bt '/'
              (r ++ '"' :: subUrls ('/' :: bt) rest) (by simpa using h1)]
            simp
        have hmQ : headMatch ('"' :: (U7 ++
            (bt ++ '/' :: (r ++ '"' :: subUrls ('/' :: bt) rest)))) = none := by
          rw [headMatch_quote_u7 _ _ rfl, if_pos hblk]
        have hmW : headMatch ('"' :: subUrls ('/' :: bt) rest) = none := by
          apply headMatch_none_of_not_lit8
          rw [show (LIT8 : List Char) = '"' :: U7 from rfl]
          simp [List.isPrefixOf, preU7 ('/' :: bt) rfl rest hok2.1]
        have hsub : subUrls ('/' :: bt)
            (bt ++ '/' :: (r ++ '"' :: subUrls ('/' :: bt) rest)) =
            bt ++ '/' :: (r ++ '"' :: subUrls ('/' :: bt) rest) := by
          rw [show bt ++ '/' :: (r ++ '"' :: subUrls ('/' :: bt) rest) =
            (bt ++ '/' :: r) ++ ('"' :: subUrls ('/' :: bt) rest) from by
              rw [List.append_assoc, List.cons_append]]
          rw [subUrls_append_noquote _ (bt ++ '/' :: r) _ (by
            intro hmem
            rcases List.mem_append.mp hmem with h1 | h1
            · exact hbtq h1
            · rcases List.mem_cons.mp h1 with h2 | h2
              · exact absurd h2 (by decide)
              · exact hrq h2)]
          rw [subUrls_cons_none _ _ _ hmW]
          rw [ih rest (by omega) hok2.2]
        rw [subUrls_match _ _ _ _ hm]
        show subUrls ('/' :: bt)
            ('"' :: (U7 ++ (bt ++ '/' :: (r ++ '"' :: subUrls ('/' :: bt) rest)))) =
          '"' :: (U7 ++ (bt ++ '/' :: (r ++ '"' :: subUrls ('/' :: bt) rest)))
        rw [subUrls_cons_none _ _ _ hmQ, subUrls_U7, hsub]
  intro s hok
  exact main s.length s (Nat.le_refl _) hok

/-- Claim C5 (counterexample): the rewrite is not idempotent on every body —
when the closing quote of one rewritten occurrence is immediately reused as
the opening quote of a second `url":"/…"` pattern, the second application
rewrites text the first could not (non-overlapping matches), so the bodies
differ. -/
theorem c5_not_idempotent_counterexample :
    (rewrite_myst_response (some "/myst-build/")
        (rewrite_myst_response (some "/myst-build/")
          { contentType := "text/html", body := "\"url\":\"/a\"url\":\"/b\"" }
          { uri := "/myst-build/proj/" })
        { uri := "/myst-build/proj/" }).body ≠
      (rewrite_myst_response (some "/myst-build/")
        { contentType := "text/html", body := "\"url\":\"/a\"url\":\"/b\"" }
        { uri := "/myst-build/proj/" }).body := by
  decide

theorem rewrite_some_eq (pbu : String) (resp : RResponse) (req : RRequest) :
    rewrite_myst_response (some pbu) resp req =
      if ¬ containsSubstr resp.contentType "text/html" = true then resp
      else if ¬ strStarts (urlPath req.uri) (rstripSlash pbu ++ "/") = true ∧
          urlPath req.uri ≠ rstripSlash pbu then resp
      else
        { contentType := resp.contentType
          body := String.mk (subUrls (rewriteBaseUrl (rstripSlash pbu)
            (urlPath req.uri)).data resp.body.data)
          contentLength := some (toString (String.mk (subUrls (rewriteBaseUrl
            (rstripSlash pbu) (urlPath req.uri)).data
            resp.body.data)).utf8ByteSize) } := rfl

/-- Claim C5 (amended): the rewrite is idempotent — a second application
returns the response unchanged, never double-prefixing — whenever the
computed rewrite base URL has the shape the negative lookahead protects
(leading slash followed, once a slash is appended, by `myst-build/` or
`user/`, as produced by the stock `/myst-build/` and `/user/…/myst-build/`
mounts, and quote-free) and the body is overlap-free (no match's closing
quote is immediately reused as the opening quote of a further `url":"/…`
pattern). -/
theorem c5_amended_idempotent (pbu : String) (resp : RResponse) (req : RRequest)
    (hgood : GoodBase (rewriteBaseUrl (rstripSlash pbu) (urlPath req.uri)).data)
    (hscan : scanOk resp.body.data = true) :
    rewrite_myst_response (some pbu) (rewrite_myst_response (some pbu) resp req)
      req = rewrite_myst_response (some pbu) resp req := by
  by_cases hct : containsSubstr resp.contentType "text/html" = true
  case neg =>
    have hfix : rewrite_myst_response (some pbu) resp req = resp := by
      rw [rewrite_some_eq, if_pos hct]
    rw [hfix]
    exact hfix
  by_cases hpc : ¬ strStarts (urlPath req.uri) (rstripSlash pbu ++ "/") = true ∧
      urlPath req.uri ≠ rstripSlash pbu
  case pos =>
    have hfix : rewrite_myst_response (some pbu) resp req = resp := by
      rw [rewrite_some_eq, if_neg (fun hi => hi hct), if_pos hpc]
    rw [hfix]
    exact hfix
  case neg =>
    have hbody := subUrls_idem _ hgood resp.body.data hscan
    have h1 : rewrite_myst_response (some pbu) resp req =
        { contentType := resp.contentType
          body := String.mk (subUrls (rewriteBaseUrl (rstripSlash pbu)
            (urlPath req.uri)).data resp.body.data)
          contentLength := some (toString (String.mk (subUrls (rewriteBaseUrl
            (rstripSlash pbu) (urlPath req.uri)).data
            resp.body.data)).utf8ByteSize) } := by
      rw [rewrite_some_eq, if_neg (fun hi => hi hct), if_neg hpc]
    rw [h1, rewrite_some_eq, if_neg (fun hi => hi hct), if_neg hpc]
    rw [show (String.mk (subUrls (rewriteBaseUrl (rstripSlash pbu)
      (urlPath req.uri)).data resp.body.data)).data =
      subUrls (rewriteBaseUrl (rstripSlash pbu) (urlPath req.uri)).data
        resp.body.data from rfl]
    rw [hbody]

/-- Witness for C5 (amended) at the stock local mount `/myst-build/`: the
double application returns the once-rewritten response unchanged. -/
theorem c5_amended_idempotent_witness :
    rewrite_myst_response (some "/myst-build/")
        (rewrite_myst_response (some "/myst-build/")
          { contentType := "text/html; charset=utf-8",
            body := "x\"url\":\"/chapter2\"y" }
          { uri := "/myst-build/mysite/index.html" })
        { uri := "/myst-build/mysite/index.html" } =
      rewrite_myst_response (some "/myst-build/")
        { contentType := "text/html; charset=utf-8",
          body := "x\"url\":\"/chapter2\"y" }
        { uri := "/myst-build/mysite/index.html" } :=
  c5_amended_idempotent "/myst-build/"
    { contentType := "text/html; charset=utf-8",
      body := "x\"url\":\"/chapter2\"y" }
    { uri := "/myst-build/mysite/index.html" } (by decide) (by decide)
